import Mathlib

/-!
newsApi-go: query composition, feed post-processing and the two batch passes.

A shallow embedding of `newsapi/newsapi.go` and `newsapi/options.go`.

Go strings are byte sequences, so `GoString` is a list of bytes.  The pieces of
the Go standard library the code calls (`net/url`, `strings`, `sort`) are
embedded from their Go sources, next to the functions of the repository.
-/

namespace NewsApi

/-! ## Go strings -/

/-- One byte of a Go string. -/
abbrev Byte := Fin 256

/-- A Go `string`: an immutable sequence of bytes. -/
abbrev GoString := List Byte

/-- An ASCII string literal of the Go source, as bytes. -/
def str (s : String) : GoString := s.toList.map (fun c => Fin.ofNat c.toNat)

/-- A check of a predicate on every byte value, by enumeration. -/
def allBytes (p : Byte → Bool) : Bool := (List.range 256).all (fun n => p (Fin.ofNat n))

/-! ## `net/url`: query escaping (Go standard library) -/

/-- Go `shouldEscape(c, encodeQueryComponent)`: everything but the unreserved
characters (letters, digits, `-`, `_`, `.`, `~`) is escaped. -/
def shouldEscape (c : Byte) : Bool :=
  if (97 ≤ c.val && c.val ≤ 122) || (65 ≤ c.val && c.val ≤ 90) || (48 ≤ c.val && c.val ≤ 57) then false
  else if c.val = 45 || c.val = 95 || c.val = 46 || c.val = 126 then false
  else true

/-- Go `upperhex[i]` for `upperhex = "0123456789ABCDEF"`. -/
def upperhex (i : Nat) : Byte :=
  if i < 10 then Fin.ofNat (48 + i) else Fin.ofNat (55 + i)

/-- The bytes `escape` writes for one input byte in query-component mode. -/
def escapeByte (c : Byte) : GoString :=
  if c.val = 32 then [43]
  else if shouldEscape c then [37, upperhex (c.val / 16), upperhex (c.val % 16)]
  else [c]

/-- Go `url.QueryEscape`. -/
def QueryEscape (s : GoString) : GoString :=
  s.flatMap escapeByte

/-- Go `ishex`. -/
def ishex (c : Byte) : Bool :=
  (48 ≤ c.val && c.val ≤ 57) || (97 ≤ c.val && c.val ≤ 102) || (65 ≤ c.val && c.val ≤ 70)

/-- Go `unhex`. -/
def unhex (c : Byte) : Nat :=
  if 48 ≤ c.val && c.val ≤ 57 then c.val - 48
  else if 97 ≤ c.val && c.val ≤ 102 then c.val - 97 + 10
  else if 65 ≤ c.val && c.val ≤ 70 then c.val - 65 + 10
  else 0

/-- Go `url.QueryUnescape` (`unescape(s, encodeQueryComponent)`): `none` is the
`EscapeError` of a `%` that is not followed by two hex digits. -/
def QueryUnescape : GoString → Option GoString
  | [] => some []
  | c :: rest =>
    if c.val = 37 then
      match rest with
      | h1 :: h2 :: rest2 =>
        if ishex h1 && ishex h2 then
          (QueryUnescape rest2).map (fun t => Fin.ofNat (unhex h1 * 16 + unhex h2) :: t)
        else none
      | _ => none
    else if c.val = 43 then (QueryUnescape rest).map (fun t => (32 : Byte) :: t)
    else (QueryUnescape rest).map (fun t => c :: t)

/-! ## `net/url`: `Values` (Go standard library) -/

/-- Go `url.Values`, a `map[string][]string`, as an association list with
distinct keys. -/
abbrev Values := List (GoString × List GoString)

/-- The map read `v[key]`: the nil slice when the key is absent. -/
def Values.lookup (v : Values) (key : GoString) : List GoString :=
  match v with
  | [] => []
  | (k, vs) :: rest => if k = key then vs else Values.lookup rest key

/-- The map write `v[key] = vs`. -/
def Values.store (v : Values) (key : GoString) (vs : List GoString) : Values :=
  match v with
  | [] => [(key, vs)]
  | (k, old) :: rest => if k = key then (k, vs) :: rest else (k, old) :: Values.store rest key vs

/-- Go `Values.Get`: the first value of the key, or the empty string. -/
def Values.Get (v : Values) (key : GoString) : GoString :=
  match v.lookup key with
  | [] => []
  | x :: _ => x

/-- Go `Values.Set`: `v[key] = []string{value}`. -/
def Values.Set (v : Values) (key value : GoString) : Values :=
  v.store key [value]

/-- Go `Values.Add`: `v[key] = append(v[key], value)`. -/
def Values.Add (v : Values) (key value : GoString) : Values :=
  v.store key (v.lookup key ++ [value])

/-- Go string comparison `a < b`: bytewise lexicographic. -/
def strLt : GoString → GoString → Bool
  | [], [] => false
  | [], _ :: _ => true
  | _ :: _, [] => false
  | a :: as, b :: bs => if a.val < b.val then true else if b.val < a.val then false else strLt as bs

/-- Insertion of one key into a sorted list of keys. -/
def insertKey (k : GoString) : List GoString → List GoString
  | [] => [k]
  | x :: xs => if strLt x k then x :: insertKey k xs else k :: x :: xs

/-- Go `slices.Sort(keys)` on the (distinct) keys of a map: the keys in
ascending order. -/
def sortKeys (keys : List GoString) : List GoString :=
  keys.foldr insertKey []

/-- The inner loop of `Values.Encode` for one key: each value is written as
`key=value`, preceded by `&` when the buffer is not empty. -/
def encodeKey (keyEscaped : GoString) (vs : List GoString) (buf : GoString) : GoString :=
  vs.foldl (fun buf v =>
    (if buf.length > 0 then buf ++ [38] else buf) ++ keyEscaped ++ [61] ++ QueryEscape v) buf

/-- Go `Values.Encode`: the `key=value` pairs, escaped, joined by `&`, sorted
by key. -/
def Values.Encode (v : Values) : GoString :=
  if v.length = 0 then []
  else (sortKeys (v.map Prod.fst)).foldl (fun buf k => encodeKey (QueryEscape k) (v.lookup k) buf) []

/-- Go `strings.Cut(s, sep)` for a one-byte separator: the text before the
first separator, the text after it, and whether the separator was found. -/
def cut (sep : Byte) : GoString → GoString × GoString × Bool
  | [] => ([], [], false)
  | c :: rest =>
    if c = sep then ([], rest, true)
    else
      let r := cut sep rest
      (c :: r.1, r.2.1, r.2.2)

/-- Go `parseQuery(m, query)`: the loop of `url.ParseQuery`.  The result is the
map and whether an error was recorded (a `;` in a pair, or a bad escape); the
pairs with an error are skipped, as in Go. -/
def parseQuery (m : Values) (failed : Bool) (query : GoString) : Values × Bool :=
  match query with
  | [] => (m, failed)
  | c :: rest =>
    let r := cut 38 (c :: rest)
    let key := r.1
    have : r.2.1.length < (c :: rest).length := by
      have shorter : ∀ s : GoString, (cut 38 s).2.1.length ≤ s.length := by
        intro s
        induction s with
        | nil => simp [cut]
        | cons d t ih =>
          unfold cut
          split
          · simp
          · simp only [List.length_cons]; omega
      show (cut 38 (c :: rest)).2.1.length < (c :: rest).length
      unfold cut
      split
      · simp
      · have := shorter rest
        simp only [List.length_cons]; omega
    if key.contains 59 then parseQuery m true r.2.1
    else if key = [] then parseQuery m failed r.2.1
    else
      let kv := cut 61 key
      match QueryUnescape kv.1 with
      | none => parseQuery m true r.2.1
      | some k =>
        match QueryUnescape kv.2.1 with
        | none => parseQuery m true r.2.1
        | some value => parseQuery (m.Add k value) failed r.2.1
termination_by query.length

/-- Go `url.ParseQuery`. -/
def ParseQuery (query : GoString) : Values × Bool :=
  parseQuery [] false query

/-- Go `url.URL`, the fields the code sets. -/
structure URL where
  Scheme : GoString
  Host : GoString
  Path : GoString
  RawQuery : GoString
deriving DecidableEq, Repr

/-- Go `URL.Query`: `ParseQuery(u.RawQuery)`, the error dropped. -/
def URL.Query (u : URL) : Values :=
  (ParseQuery u.RawQuery).1

/-- Go `url.Parse`.  The empty string parses to the zero URL: in `parse`,
`getScheme("")` is `("", "", nil)`, there is no `?`, no leading `/`, no colon in
the first path segment, no `//` authority, and `setPath("")` succeeds.  The
parsing of a non-empty text is the capability `parseNonEmpty`. -/
def Parse (parseNonEmpty : GoString → Except String URL) (rawURL : GoString) : Except String URL :=
  if rawURL = [] then .ok { Scheme := [], Host := [], Path := [], RawQuery := [] }
  else parseNonEmpty rawURL

/-! ## `strings.ToUpper` (Go standard library) -/

/-- The ASCII branch of `strings.ToUpper`: `c -= 'a' - 'A'` for `'a' <= c <= 'z'`. -/
def upperByte (c : Byte) : Byte :=
  if 97 ≤ c.val && c.val ≤ 122 then Fin.ofNat (c.val - 32) else c

/-- Go `strings.ToUpper`.  A string of ASCII bytes only (all below
`utf8.RuneSelf`) is mapped byte by byte; for any other string Go returns
`strings.Map(unicode.ToUpper, s)`, which is the capability `mapUpper`. -/
def ToUpper (mapUpper : GoString → GoString) (s : GoString) : GoString :=
  if s.all (fun c => c.val < 128) then s.map upperByte else mapUpper s

/-! ## The configuration object (`newsapi.go`, `options.go`) -/

/-- Go `time.Duration`: a number of nanoseconds. -/
abbrev Duration := Int

/-- Go `time.Time`, as an instant on the time line (nanoseconds from an epoch). -/
abbrev Time := Int

/-- Go `Time.After`: `t` is an instant after `u`. -/
def Time.After (t u : Time) : Bool := decide (u < t)

/-- Go `*http.Client` values the code builds: the shared default client, or a
client whose transport goes through a proxy. -/
inductive Client where
  | DefaultClient
  | proxied (proxy : GoString)
deriving DecidableEq, Repr

/-- Go `context.Context`, by identity; `0` is `context.Background()`.  A context
is never nil (the package `context` forbids passing a nil one). -/
abbrev Context := Nat

/-- A Go `map[string]string`; the nil map is the empty list. -/
abbrev GoMap := List (GoString × GoString)

/-- The map read with presence, `v, ok := m[key]`. -/
def GoMap.find (m : GoMap) (key : GoString) : Option GoString :=
  match m with
  | [] => none
  | (k, v) :: rest => if k = key then some v else GoMap.find rest key

/-- The map read `m[key]`: the empty string when the key is absent. -/
def GoMap.index (m : GoMap) (key : GoString) : GoString :=
  match GoMap.find m key with
  | some v => v
  | none => []

/-- The struct `newsApi`. -/
structure newsApi where
  language : GoString
  location : GoString
  period : Option Duration
  startDate : Option Time
  endDate : Option Time
  limit : Int
  order : Bool
  contentSelector : GoMap
  defaultSelector : GoString
  client : Option Client
  ctx : Context
deriving DecidableEq, Repr

/-- The object the package variable `defaultNewsApi` points to, as initialised. -/
def defaultNewsApiInit : newsApi :=
  { language := str "en"
    location := str "US"
    period := none
    startDate := none
    endDate := none
    limit := 10
    order := false
    contentSelector := []
    defaultSelector := []
    client := some Client.DefaultClient
    ctx := 0 }

/-- The package variable `googleNewsURL`. -/
def googleNewsURL : URL :=
  { Scheme := str "https", Host := str "news.google.com", Path := str "/", RawQuery := [] }

/-- Go `type QueryOption func(*newsApi)`: what the closure does to the object
it is given. -/
abbrev QueryOption := newsApi → newsApi

/-- Go `type NewsApiOption func(*newsApi)`. -/
abbrev NewsApiOption := newsApi → newsApi

def WithLanguage (language : GoString) : QueryOption :=
  fun n => { n with language := language }

def WithLocation (location : GoString) : QueryOption :=
  fun n => { n with location := location }

/-- `WithLimit`; `MaxSearchResults` is a constant of the package declared
in another file of the package, taken as a parameter. -/
def WithLimit (MaxSearchResults : Int) (limit : Int) : QueryOption :=
  let limit := if limit > MaxSearchResults then MaxSearchResults else limit
  fun n => { n with limit := limit }

def WithPeriod (period : Duration) : QueryOption :=
  fun n => { n with period := some period }

def WithoutPeriod : QueryOption :=
  fun n => { n with period := none }

def WithStartDate (startDate : Time) : QueryOption :=
  fun n => { n with startDate := some startDate }

def WithoutStartDate : QueryOption :=
  fun n => { n with startDate := none }

def WithEndDate (endDate : Time) : QueryOption :=
  fun n => { n with endDate := some endDate }

def WithoutEndDate : QueryOption :=
  fun n => { n with endDate := none }

def WithoutDuration : QueryOption :=
  fun n => { n with period := none, startDate := none, endDate := none }

def WithContentSelector (selector : GoMap) : QueryOption :=
  fun n => { n with contentSelector := selector }

def WithOrder (order : Bool) : QueryOption :=
  fun n => { n with order := order }

def WithDefaultSelector (selector : GoString) : QueryOption :=
  fun n => { n with defaultSelector := selector }

def WithProxy (proxy : GoString) : NewsApiOption :=
  fun n => { n with client := some (Client.proxied proxy) }

def WithoutProxy : NewsApiOption :=
  fun n => { n with client := none }

def WithContext (ctx : Context) : NewsApiOption :=
  fun n => { n with ctx := ctx }

/-- The option constructors of `options.go`, by name, with their arguments. -/
inductive OptionCall where
  | withLanguage (language : GoString)
  | withLocation (location : GoString)
  | withLimit (limit : Int)
  | withPeriod (period : Duration)
  | withoutPeriod
  | withStartDate (startDate : Time)
  | withoutStartDate
  | withEndDate (endDate : Time)
  | withoutEndDate
  | withoutDuration
  | withContentSelector (selector : GoMap)
  | withOrder (order : Bool)
  | withDefaultSelector (selector : GoString)
  | withProxy (proxy : GoString)
  | withoutProxy
  | withContext (ctx : Context)
deriving DecidableEq, Repr

/-- The closure an option constructor returns. -/
def OptionCall.option (MaxSearchResults : Int) : OptionCall → newsApi → newsApi
  | .withLanguage l => WithLanguage l
  | .withLocation l => WithLocation l
  | .withLimit l => WithLimit MaxSearchResults l
  | .withPeriod p => WithPeriod p
  | .withoutPeriod => WithoutPeriod
  | .withStartDate d => WithStartDate d
  | .withoutStartDate => WithoutStartDate
  | .withEndDate d => WithEndDate d
  | .withoutEndDate => WithoutEndDate
  | .withoutDuration => WithoutDuration
  | .withContentSelector m => WithContentSelector m
  | .withOrder o => WithOrder o
  | .withDefaultSelector s => WithDefaultSelector s
  | .withProxy p => WithProxy p
  | .withoutProxy => WithoutProxy
  | .withContext c => WithContext c

/-! ### Handles

`NewNewsApi` returns a `*newsApi`.  The heap holds the `newsApi` objects of the
program by address; the package variable `defaultNewsApi` is the address of the
object allocated when the package is initialised. -/

/-- A `*newsApi`: the address of an object of the heap. -/
abbrev Handle := Nat

/-- The heap of `newsApi` objects, by address. -/
abbrev Heap := List newsApi

/-- The address held by the package variable `defaultNewsApi`. -/
def defaultNewsApi : Handle := 0

/-- The heap after package initialisation. -/
def initHeap : Heap := [defaultNewsApiInit]

/-- The call `option(n)` of a `func(*newsApi)` on the pointer `n`: the object at
that address is updated in place. -/
def applyOption (n : Handle) (h : Heap) (option : newsApi → newsApi) : Heap :=
  h.modify option n

/-- `NewNewsApi`: `n := defaultNewsApi`, the options applied through `n`, and
`n` returned.  No object is allocated. -/
def NewNewsApi (options : List NewsApiOption) (h : Heap) : Handle × Heap :=
  let n := defaultNewsApi
  (n, options.foldl (applyOption n) h)

/-- `SetQueryOptions`: the options applied through the receiver. -/
def SetQueryOptions (n : Handle) (options : List QueryOption) (h : Heap) : Heap :=
  options.foldl (applyOption n) h

/-! ## `composeURL` -/

/-- `composeURL`.  `FormatDuration` is a helper of the package defined in
another of its files and `formatDateOnly` is Go `Time.Format(time.DateOnly)`;
both are parameters. -/
def composeURL (FormatDuration : Duration → GoString) (formatDateOnly : Time → GoString)
    (n : newsApi) (path query : GoString) : URL :=
  let searchURL := googleNewsURL
  let q : Values := []
  let q := q.Add (str "hl") n.language
  let q := q.Add (str "gl") n.location
  let q := q.Add (str "ceid") (n.location ++ str ":" ++ n.language)
  let searchURL := { searchURL with Path := path }
  let q :=
    if query ≠ [] then
      let q := q.Set (str "q") query
      let q := match n.period with
        | some period => q.Set (str "q") (q.Get (str "q") ++ str " when:" ++ FormatDuration period)
        | none => q
      let q := match n.endDate with
        | some endDate => q.Set (str "q") (q.Get (str "q") ++ str " before:" ++ formatDateOnly endDate)
        | none => q
      let q := match n.startDate with
        | some startDate => q.Set (str "q") (q.Get (str "q") ++ str " after:" ++ formatDateOnly startDate)
        | none => q
      q
    else q
  { searchURL with RawQuery := q.Encode }

/-! ## Errors, results, feed entries and news items -/

/-- The `error` values of the code: the sentinel errors of the package (their
declarations are in another file of the package; the specification calls them
`InvalidArgument`) and the errors `getNews` builds with
`fmt.Errorf("<message>: %w", err)`. -/
inductive Error where
  | ErrEmptyLocation
  | ErrEmptyTopic
  | ErrInvalidTopic
  | ErrEmptyQuery
  | wrapped (message : String) (cause : String)
deriving DecidableEq, Repr

/-- How a call ends: it returns a value, it returns an error, or it panics (a
nil pointer is dereferenced). -/
inductive Res (α : Type) where
  | ok (value : α)
  | err (e : Error)
  | panic
deriving DecidableEq, Repr

/-- A `gofeed.Item`: the fields of a feed entry the specification names.  The
published timestamp is a `*time.Time`, nil when the entry has none. -/
structure Item where
  Title : GoString
  Link : GoString
  Description : GoString
  PublishedParsed : Option Time
  Source : GoString
deriving DecidableEq, Repr

/-- Modelled from the spec: the record `News`, whose declaration is in another
file of the package.  The identity fields come from the feed entry,
`SourceLink` is the resolved link (empty until resolved), and the `Source...`
fields the caller in `example/main.go` prints are the extraction fields (empty
until extracted). -/
structure News where
  Title : GoString
  Link : GoString
  Description : GoString
  PublishedParsed : Option Time
  Source : GoString
  SourceLink : GoString
  SourceTitle : GoString
  SourceImageURL : GoString
  SourceImageWidth : GoString
  SourceImageHeight : GoString
  SourceDescription : GoString
  SourceKeywords : GoString
  SourceSiteName : GoString
  SourceIconUrl : GoString
  SourceContent : GoString
deriving DecidableEq, Repr

/-- Modelled from the spec: `NewNews`, defined in another file of the package.
One item is constructed per raw feed entry from the entry's identity fields;
the resolution and extraction fields are unset. -/
def NewNews (item : Item) : News :=
  { Title := item.Title
    Link := item.Link
    Description := item.Description
    PublishedParsed := item.PublishedParsed
    Source := item.Source
    SourceLink := []
    SourceTitle := []
    SourceImageURL := []
    SourceImageWidth := []
    SourceImageHeight := []
    SourceDescription := []
    SourceKeywords := []
    SourceSiteName := []
    SourceIconUrl := []
    SourceContent := [] }

/-- What the code takes from outside `newsapi.go` and `options.go`: the
constants and helpers of the package that are declared in its other files, and
the capabilities of the libraries it calls (HTTP, the feed parser, the scripted
browser). -/
structure Env where
  /-- The package constant `MaxSearchResults`. -/
  MaxSearchResults : Int
  /-- The package table `TopicMap`. -/
  TopicMap : GoMap
  /-- The package helper `FormatDuration`. -/
  FormatDuration : Duration → GoString
  /-- Go `Time.Format(time.DateOnly)`. -/
  formatDateOnly : Time → GoString
  /-- Go `strings.Map(unicode.ToUpper, s)`, the branch of `strings.ToUpper` for
  a string with a non-ASCII byte. -/
  mapUpper : GoString → GoString
  /-- Go `url.Parse` on a non-empty text. -/
  parseNonEmpty : GoString → Except String URL
  /-- The error of `http.NewRequest(http.MethodGet, searchURL.String(), nil)`, if any. -/
  NewRequest : URL → Option String
  /-- The call `client.Do(req)`: an error, or a response whose body reads
  (`io.ReadAll`) to an error or to a text. -/
  Do : Client → URL → Except String (Except String GoString)
  /-- The call `gofeed.NewParser().ParseString(body)`: an error, or the entries
  of the feed in feed order. -/
  ParseString : GoString → Except String (List Item)
  /-- Go `pdqsort_func` on a slice of more than 12 elements, with the
  comparison of `getNews`; `none` when the comparison panics. -/
  pdqsort : List News → Option (List News)
  /-- The scripted browser: from a browser context and the aggregator link, the
  URL the browser lands on, or an error. -/
  render : Context → GoString → Except String GoString
  /-- The method `news.fetchSourceContent(selector)`, defined in another file of
  the package: the item as the call leaves it, and the error returned, if any. -/
  fetchSourceContent : News → GoString → News × Option String

/-! ## `getNews` -/

/-- The comparison passed to `sort.Slice` in `getNews`:
`newsList[i].PublishedParsed.After(*newsList[j].PublishedParsed)`.  Both
timestamps are dereferenced; `none` is the panic on a nil one. -/
def less (newsList : List News) (i j : Nat) : Option Bool :=
  match newsList[i]?, newsList[j]? with
  | some a, some b =>
    match a.PublishedParsed, b.PublishedParsed with
    | some t, some u => some (Time.After t u)
    | _, _ => none
  | _, _ => none

/-- The swap of `sort.Slice`: the elements at `i` and `j` exchanged. -/
def swap (newsList : List News) (i j : Nat) : List News :=
  match newsList[i]?, newsList[j]? with
  | some a, some b => (newsList.set i b).set j a
  | _, _ => newsList

/-- The inner loop of Go `insertionSortLessFunc`:
`for j := i; j > a && data.Less(j, j-1); j-- { data.Swap(j, j-1) }`, with
`a = 0`; `none` when the comparison panics. -/
def insertionInner (newsList : List News) : Nat → Option (List News)
  | 0 => some newsList
  | j + 1 =>
    match less newsList (j + 1) j with
    | some true => insertionInner (swap newsList (j + 1) j) j
    | some false => some newsList
    | none => none

/-- The outer loop of Go `insertionSortLessFunc`, `for i := a + 1; i < b; i++`,
from index `i` with `remaining = b - i` rounds to go. -/
def insertionOuter (newsList : List News) (i : Nat) : Nat → Option (List News)
  | 0 => some newsList
  | remaining + 1 =>
    match insertionInner newsList i with
    | some sorted => insertionOuter sorted (i + 1) remaining
    | none => none

/-- Go `sort.Slice(newsList, less)`: `pdqsort_func` sorts a slice of at most 12
elements by insertion sort; a longer slice goes through the capability
`pdqsort`.  `none` when the comparison panics. -/
def sortSlice (pdqsort : List News → Option (List News)) (newsList : List News) :
    Option (List News) :=
  if newsList.length ≤ 12 then insertionOuter newsList 1 (newsList.length - 1)
  else pdqsort newsList

/-- What a query entry point leaves behind: its result, and the URLs requests
were sent to. -/
structure Outcome where
  result : Res (List News)
  requests : List URL
deriving DecidableEq, Repr

/-- `getNews`. -/
def getNews (E : Env) (n : newsApi) (path query : GoString) : Outcome :=
  let searchURL := composeURL E.FormatDuration E.formatDateOnly n path query
  match E.NewRequest searchURL with
  | some e => ⟨.err (.wrapped "error creating request" e), []⟩
  | none =>
    match n.client with
    | none => ⟨.panic, []⟩
    | some client =>
      match E.Do client searchURL with
      | .error e => ⟨.err (.wrapped "error getting response" e), [searchURL]⟩
      | .ok body =>
        match body with
        | .error e => ⟨.err (.wrapped "error reading response body" e), [searchURL]⟩
        | .ok text =>
          match E.ParseString text with
          | .error e => ⟨.err (.wrapped "error parsing response body" e), [searchURL]⟩
          | .ok items =>
            let newsList := items.map NewNews
            let sorted := if n.order then sortSlice E.pdqsort newsList else some newsList
            match sorted with
            | some newsList =>
              let newsList :=
                if n.limit > 0 ∧ n.limit < (newsList.length : Int) then newsList.take n.limit.toNat
                else newsList
              ⟨.ok newsList, [searchURL]⟩
            | none => ⟨.panic, [searchURL]⟩

/-- The feed of a query is fetched and parsed successfully, with these entries:
the request is created, the client is set, the response arrives, its body is
read and the parser accepts it. -/
def FetchedFeed (E : Env) (n : newsApi) (path query : GoString) (items : List Item) : Prop :=
  ∃ client text,
    E.NewRequest (composeURL E.FormatDuration E.formatDateOnly n path query) = none ∧
    n.client = some client ∧
    E.Do client (composeURL E.FormatDuration E.formatDateOnly n path query) = .ok (.ok text) ∧
    E.ParseString text = .ok items

/-- `GetTopNews`. -/
def GetTopNews (E : Env) (n : newsApi) : Outcome :=
  getNews E n (str "/rss") []

/-- `GetLocationNews`. -/
def GetLocationNews (E : Env) (n : newsApi) (location : GoString) : Outcome :=
  if location = [] then ⟨.err .ErrEmptyLocation, []⟩
  else
    let path := str "rss/headlines/section/geo/" ++ location
    getNews E n path []

/-- `GetTopicNews`. -/
def GetTopicNews (E : Env) (n : newsApi) (topic : GoString) : Outcome :=
  if topic = [] then ⟨.err .ErrEmptyTopic, []⟩
  else
    let topic := ToUpper E.mapUpper topic
    match E.TopicMap.find topic with
    | none => ⟨.err .ErrInvalidTopic, []⟩
    | some _ =>
      let path := str "rss/headlines/section/topic/" ++ topic
      getNews E n path []

/-- `SearchNews`. -/
def SearchNews (E : Env) (n : newsApi) (query : GoString) : Outcome :=
  if query = [] then ⟨.err .ErrEmptyQuery, []⟩
  else getNews E n (str "rss/search") query

/-! ## The two batch passes

`FetchSourceLinks` and `FetchSourceContents` start one goroutine per item and
wait for all of them (`sync.WaitGroup`).  Each goroutine reads and writes only
the item it was started for, so a run is determined by the order in which the
goroutines take effect: a schedule, the list of the item indices in that order.
The runs of the code are the schedules that are a permutation of the indices.
The items of a batch are distinct, non-nil objects, as `getNews` returns them. -/

/-- What a goroutine of a batch pass does that can be observed. -/
inductive Event where
  /-- The call `news.fetchSourceLink(ctx)` on this item. -/
  | fetchSourceLink (news : News)
  /-- The call `news.fetchSourceContent(selector)` on this item. -/
  | fetchSourceContent (news : News) (selector : GoString)
  /-- A text written to the standard output by `fmt.Printf`. -/
  | print (text : String)
  /-- A line written with `log.Println`. -/
  | log (line : String)
  /-- The line of `log.Println("using default selector:", linkURL)`. -/
  | usingDefaultSelector (linkURL : URL)
deriving DecidableEq, Repr

/-- The statement `log.Println(fmt.Printf(format, err))` of the two batch
passes: `fmt.Printf` writes the message to the standard output and returns the
number of bytes written and a nil error, and it is those two values that
`log.Println` logs. -/
def logPrintf (message : String) : List Event :=
  [Event.print message, Event.log (toString message.utf8ByteSize ++ " <nil>")]

/-- The item of a `fetchSourceLink` call, for the calls among the events. -/
def Event.resolveCall : Event → Option News
  | .fetchSourceLink news => some news
  | _ => none

/-- The item and selector of a `fetchSourceContent` call, for the calls among
the events. -/
def Event.extractCall : Event → Option (News × GoString)
  | .fetchSourceContent news selector => some (news, selector)
  | _ => none

/-- The goroutine of the item at index `i` takes effect: the item is replaced
by what the worker leaves and the worker's events are recorded. -/
def runWorker (worker : News → News × List Event) (state : List News × List Event) (i : Nat) :
    List News × List Event :=
  match state.1[i]? with
  | none => state
  | some news => (state.1.set i (worker news).1, state.2 ++ (worker news).2)

/-- A batch pass under a schedule: the goroutines take effect in that order, and
the call returns when all have (`wg.Wait()`). -/
def runBatch (worker : News → News × List Event) (newsList : List News) (schedule : List Nat) :
    List News × List Event :=
  schedule.foldl (runWorker worker) (newsList, [])

/-- Modelled from the spec: the method `News.fetchSourceLink`, defined in
another file of the package.  It drives the scripted browser against the item's
aggregator link; on success the resolved link is the URL the browser lands on,
on failure the error is returned and the resolved link is left as it was. -/
def News.fetchSourceLink (render : GoString → Except String GoString) (news : News) :
    News × Option String :=
  match render news.Link with
  | .ok finalURL => ({ news with SourceLink := finalURL }, none)
  | .error e => (news, some e)

/-- The goroutine body of `FetchSourceLinks`. -/
def linkWorker (E : Env) (n : newsApi) (news : News) : News × List Event :=
  let r := News.fetchSourceLink (E.render n.ctx) news
  (r.1, Event.fetchSourceLink news ::
    (match r.2 with
     | some e => logPrintf ("error fetching source link: " ++ e)
     | none => []))

/-- `FetchSourceLinks`. -/
def FetchSourceLinks (E : Env) (n : newsApi) (newsList : List News) (schedule : List Nat) :
    List News × List Event :=
  runBatch (linkWorker E n) newsList schedule

/-- The selector `FetchSourceContents` passes on for a host:
`currSelector := n.contentSelector[host]`, replaced by the default selector when
it is empty and the default selector is not. -/
def currSelector (n : newsApi) (host : GoString) : GoString :=
  let currSelector := n.contentSelector.index host
  if currSelector = [] ∧ n.defaultSelector ≠ [] then n.defaultSelector else currSelector

/-- The goroutine body of `FetchSourceContents`. -/
def contentWorker (E : Env) (n : newsApi) (news : News) : News × List Event :=
  match Parse E.parseNonEmpty news.SourceLink with
  | .error e => (news, logPrintf ("error fetching source link: " ++ e))
  | .ok linkURL =>
    let usesDefault := n.contentSelector.index linkURL.Host = [] ∧ n.defaultSelector ≠ []
    let selector := currSelector n linkURL.Host
    let r := E.fetchSourceContent news selector
    (r.1, (if usesDefault then [Event.usingDefaultSelector linkURL] else []) ++
      Event.fetchSourceContent news selector ::
      (match r.2 with
       | some e => logPrintf ("error fetching source content: " ++ e)
       | none => []))

/-- `FetchSourceContents`. -/
def FetchSourceContents (E : Env) (n : newsApi) (newsList : List News) (schedule : List Nat) :
    List News × List Event :=
  runBatch (contentWorker E n) newsList schedule

/-- The published timestamp of an item, 0 standing for an absent one. -/
def News.published (news : News) : Time :=
  news.PublishedParsed.getD 0

/-- What the inner loop of the insertion sort does to a sorted prefix, given in
reverse, and the element `x` that follows it: `x` moves left past the elements
that are older than it. -/
def insertDescending (x : News) : List News → List News
  | [] => [x]
  | y :: before =>
    if y.published < x.published then insertDescending x before ++ [y]
    else (y :: before).reverse ++ [x]

/-- Every adjacent pair `(a, b)` of the list satisfies
`a.publishedTime >= b.publishedTime`, an absent timestamp counting as the
oldest possible value. -/
def NewestFirst (newsList : List News) : Prop :=
  newsList.Chain' (fun a b =>
    match a.PublishedParsed, b.PublishedParsed with
    | _, none => True
    | none, some _ => False
    | some t, some u => u ≤ t)

/-! ## A concrete environment -/

/-- An environment in which every request succeeds and the feed has the given
entries: `MaxSearchResults` is 100, the topics are `BUSINESS` and `WORLD`, the
browser fails on the link `bad` and lands on `https://a.com/x` otherwise, and
`https://a.com/x` parses with host `a.com`. -/
def sampleEnv (items : List Item) : Env :=
  { MaxSearchResults := 100
    TopicMap := [(str "BUSINESS", str "business"), (str "WORLD", str "world")]
    FormatDuration := fun _ => str "2h"
    formatDateOnly := fun _ => str "2024-01-02"
    mapUpper := fun s => s
    parseNonEmpty := fun s =>
      if s = str "https://a.com/x" then
        .ok { Scheme := str "https", Host := str "a.com", Path := str "/x", RawQuery := [] }
      else .error "parse"
    NewRequest := fun _ => none
    Do := fun _ _ => .ok (.ok [])
    ParseString := fun _ => .ok items
    pdqsort := fun _ => none
    render := fun _ link => if link = str "bad" then .error "timeout" else .ok (str "https://a.com/x")
    fetchSourceContent := fun news selector => ({ news with SourceContent := selector }, none) }

/-- A feed entry with the given link and published timestamp. -/
def sampleItem (link : String) (published : Option Time) : Item :=
  { Title := [], Link := str link, Description := [], PublishedParsed := published, Source := [] }

/-- A news item with the given aggregator link and resolved link, nothing
extracted. -/
def sampleNews (link sourceLink : String) : News :=
  { NewNews (sampleItem link none) with SourceLink := str sourceLink }

/-- The selector and item of the extraction call `FetchSourceContents` makes for
an item, if it makes one: none when the resolved link does not parse. -/
def extractionOf (E : Env) (n : newsApi) (news : News) : Option (News × GoString) :=
  match Parse E.parseNonEmpty news.SourceLink with
  | .ok linkURL => some (news, currSelector n linkURL.Host)
  | .error _ => none

/-- The text the specification gives for the `q` parameter: the raw query,
then the `when:`, `before:` and `after:` clauses that are configured, each
preceded by one space. -/
def specQueryText (FormatDuration : Duration → GoString) (formatDateOnly : Time → GoString)
    (n : newsApi) (query : GoString) : GoString :=
  query
    ++ (match n.period with
        | some period => str " when:" ++ FormatDuration period
        | none => [])
    ++ (match n.endDate with
        | some endDate => str " before:" ++ formatDateOnly endDate
        | none => [])
    ++ (match n.startDate with
        | some startDate => str " after:" ++ formatDateOnly startDate
        | none => [])

/-! ## Theorems : query escaping -/

theorem allBytes_spec (p : Byte → Bool) (h : allBytes p = true) (c : Byte) : p c = true := by
  have := (List.all_eq_true.mp h) c.val (List.mem_range.mpr c.isLt)
  have e : (Fin.ofNat c.val : Byte) = c := by
    apply Fin.ext; simp [Fin.ofNat]
  rwa [e] at this

set_option maxRecDepth 100000 in
theorem escapeByte_clean : ∀ c : Byte, ∀ b ∈ escapeByte c, b ≠ 38 ∧ b ≠ 61 ∧ b ≠ 59 := by
  intro c b hb
  have h := allBytes_spec (fun c => (escapeByte c).all (fun b => b != 38 && b != 61 && b != 59)) (by decide) c
  have := List.all_eq_true.mp h b hb
  simpa [and_assoc] using this

theorem QueryEscape_clean (s : GoString) : ∀ b ∈ QueryEscape s, b ≠ 38 ∧ b ≠ 61 ∧ b ≠ 59 := by
  intro b hb
  simp only [QueryEscape, List.mem_flatMap] at hb
  obtain ⟨c, _, hc⟩ := hb
  exact escapeByte_clean c b hc

set_option maxRecDepth 100000 in
theorem escapeByte_cases (c : Byte) :
    (escapeByte c = [43] ∧ c = 32) ∨
    (escapeByte c = [c] ∧ c.val ≠ 37 ∧ c.val ≠ 43) ∨
    (escapeByte c = [37, upperhex (c.val / 16), upperhex (c.val % 16)] ∧
      ishex (upperhex (c.val / 16)) = true ∧ ishex (upperhex (c.val % 16)) = true ∧
      (Fin.ofNat (unhex (upperhex (c.val / 16)) * 16 + unhex (upperhex (c.val % 16))) : Byte) = c) := by
  have h := allBytes_spec (fun c =>
    (decide (escapeByte c = [43]) && decide (c = 32)) ||
    (decide (escapeByte c = [c]) && decide (c.val ≠ 37) && decide (c.val ≠ 43)) ||
    (decide (escapeByte c = [37, upperhex (c.val / 16), upperhex (c.val % 16)]) &&
      ishex (upperhex (c.val / 16)) && ishex (upperhex (c.val % 16)) &&
      decide ((Fin.ofNat (unhex (upperhex (c.val / 16)) * 16 + unhex (upperhex (c.val % 16))) : Byte) = c))) (by decide) c
  simp only [Bool.or_eq_true, Bool.and_eq_true, decide_eq_true_eq] at h
  tauto

theorem QueryUnescape_plain (c : Byte) (rest : GoString) (h37 : c.val ≠ 37) (h43 : c.val ≠ 43) :
    QueryUnescape (c :: rest) = (QueryUnescape rest).map (fun t => c :: t) := by
  conv => lhs; unfold QueryUnescape
  simp [h37, h43]

theorem QueryUnescape_plus (rest : GoString) :
    QueryUnescape (43 :: rest) = (QueryUnescape rest).map (fun t => (32 : Byte) :: t) := by
  conv => lhs; unfold QueryUnescape
  have h1 : ((43 : Byte).val = 37) = False := by decide
  have h2 : ((43 : Byte).val = 43) = True := by decide
  simp only [h1, h2, if_true, if_false]

theorem QueryUnescape_percent (h1 h2 : Byte) (rest : GoString)
    (hx1 : ishex h1 = true) (hx2 : ishex h2 = true) :
    QueryUnescape (37 :: h1 :: h2 :: rest) =
      (QueryUnescape rest).map (fun t => (Fin.ofNat (unhex h1 * 16 + unhex h2) : Byte) :: t) := by
  conv => lhs; unfold QueryUnescape
  have h : ((37 : Byte).val = 37) = True := by decide
  simp only [h, if_true, hx1, hx2, Bool.and_self]

theorem QueryUnescape_escapeByte (c : Byte) (rest : GoString) :
    QueryUnescape (escapeByte c ++ rest) = (QueryUnescape rest).map (fun t => c :: t) := by
  rcases escapeByte_cases c with ⟨h, hc⟩ | ⟨h, h37, h43⟩ | ⟨h, hx1, hx2, hv⟩
  · subst hc
    rw [h]
    exact QueryUnescape_plus rest
  · rw [h]
    exact QueryUnescape_plain c rest h37 h43
  · rw [h]
    simp only [List.cons_append, List.nil_append]
    rw [QueryUnescape_percent _ _ _ hx1 hx2, hv]

theorem QueryUnescape_QueryEscape (s : GoString) : QueryUnescape (QueryEscape s) = some s := by
  induction s with
  | nil => simp [QueryEscape, QueryUnescape]
  | cons c rest ih =>
    have : QueryEscape (c :: rest) = escapeByte c ++ QueryEscape rest := by
      simp [QueryEscape]
    rw [this, QueryUnescape_escapeByte, ih]
    rfl

/-! ## Theorems : parsing an encoded query -/

theorem cut_found (sep : Byte) (a b : GoString) (h : ∀ x ∈ a, x ≠ sep) :
    cut sep (a ++ sep :: b) = (a, b, true) := by
  induction a with
  | nil => simp [cut]
  | cons c rest ih =>
    have hc : c ≠ sep := h c (List.mem_cons_self _ _)
    have hr : ∀ x ∈ rest, x ≠ sep := fun x hx => h x (List.mem_cons_of_mem _ hx)
    simp [cut, hc, ih hr]

theorem cut_absent (sep : Byte) (a : GoString) (h : ∀ x ∈ a, x ≠ sep) :
    cut sep a = (a, [], false) := by
  induction a with
  | nil => simp [cut]
  | cons c rest ih =>
    have hc : c ≠ sep := h c (List.mem_cons_self _ _)
    have hr : ∀ x ∈ rest, x ≠ sep := fun x hx => h x (List.mem_cons_of_mem _ hx)
    simp [cut, hc, ih hr]

theorem pair_clean (k v : GoString) :
    ∀ b ∈ QueryEscape k ++ 61 :: QueryEscape v, b ≠ 38 ∧ b ≠ 59 := by
  intro b hb
  rcases List.mem_append.mp hb with h | h
  · exact ⟨(QueryEscape_clean k b h).1, (QueryEscape_clean k b h).2.2⟩
  · rcases List.mem_cons.mp h with h | h
    · subst h; decide
    · exact ⟨(QueryEscape_clean v b h).1, (QueryEscape_clean v b h).2.2⟩

/-- One round of the loop of `parseQuery` on a query whose first segment is an
encoded `key=value` pair. -/
theorem parseQuery_round (m : Values) (failed : Bool) (query after : GoString) (found : Bool)
    (k v : GoString)
    (hcut : cut 38 query = (QueryEscape k ++ 61 :: QueryEscape v, after, found)) :
    parseQuery m failed query = parseQuery (m.Add k v) failed after := by
  cases query with
  | nil => simp [cut] at hcut
  | cons c r =>
    rw [parseQuery]
    simp only
    rw [hcut]
    simp only
    have h59 : (QueryEscape k ++ 61 :: QueryEscape v).contains 59 = false := by
      rw [Bool.eq_false_iff]
      intro h
      exact (pair_clean k v 59 (List.mem_of_elem_eq_true h)).2 rfl
    have hne : (QueryEscape k ++ 61 :: QueryEscape v = []) = False := by simp
    have hkv : cut 61 (QueryEscape k ++ 61 :: QueryEscape v) = (QueryEscape k, QueryEscape v, true) :=
      cut_found 61 _ _ (fun x hx => (QueryEscape_clean k x hx).2.1)
    simp only [h59, hne, hkv, Bool.false_eq_true, if_false, QueryUnescape_QueryEscape]

theorem parseQuery_more (m : Values) (failed : Bool) (k v rest : GoString) :
    parseQuery m failed (QueryEscape k ++ 61 :: QueryEscape v ++ 38 :: rest) =
      parseQuery (m.Add k v) failed rest :=
  parseQuery_round m failed _ rest true k v
    (cut_found 38 _ rest (fun x hx => (pair_clean k v x hx).1))

theorem parseQuery_last (m : Values) (failed : Bool) (k v : GoString) :
    parseQuery m failed (QueryEscape k ++ 61 :: QueryEscape v) = (m.Add k v, failed) := by
  rw [parseQuery_round m failed _ [] false k v
    (cut_absent 38 _ (fun x hx => (pair_clean k v x hx).1))]
  rw [parseQuery]

theorem keys_ne :
    str "hl" ≠ str "gl" ∧ str "hl" ≠ str "ceid" ∧ str "hl" ≠ str "q" ∧
    str "gl" ≠ str "hl" ∧ str "gl" ≠ str "ceid" ∧ str "gl" ≠ str "q" ∧
    str "ceid" ≠ str "hl" ∧ str "ceid" ≠ str "gl" ∧ str "ceid" ≠ str "q" ∧
    str "q" ≠ str "hl" ∧ str "q" ≠ str "gl" ∧ str "q" ≠ str "ceid" := by
  decide

theorem Encode_three (a b c : GoString) :
    Values.Encode [(str "hl", [a]), (str "gl", [b]), (str "ceid", [c])] =
      QueryEscape (str "ceid") ++ 61 :: QueryEscape c ++ 38 ::
        (QueryEscape (str "gl") ++ 61 :: QueryEscape b ++ 38 ::
          (QueryEscape (str "hl") ++ 61 :: QueryEscape a)) := by
  obtain ⟨h1, h2, h3, h4, h5, h6, h7, h8, h9, h10, h11, h12⟩ := keys_ne
  have hs : sortKeys [str "hl", str "gl", str "ceid"] = [str "ceid", str "gl", str "hl"] := by decide
  simp [Values.Encode, hs, encodeKey, Values.lookup, h1, h2, h3, h4, h5, h6, h7, h8, h9, h10, h11, h12]

theorem Encode_four (a b c d : GoString) :
    Values.Encode [(str "hl", [a]), (str "gl", [b]), (str "ceid", [c]), (str "q", [d])] =
      QueryEscape (str "ceid") ++ 61 :: QueryEscape c ++ 38 ::
        (QueryEscape (str "gl") ++ 61 :: QueryEscape b ++ 38 ::
          (QueryEscape (str "hl") ++ 61 :: QueryEscape a ++ 38 ::
            (QueryEscape (str "q") ++ 61 :: QueryEscape d))) := by
  obtain ⟨h1, h2, h3, h4, h5, h6, h7, h8, h9, h10, h11, h12⟩ := keys_ne
  have hs : sortKeys [str "hl", str "gl", str "ceid", str "q"] =
      [str "ceid", str "gl", str "hl", str "q"] := by decide
  simp [Values.Encode, hs, encodeKey, Values.lookup, h1, h2, h3, h4, h5, h6, h7, h8, h9, h10, h11, h12]

theorem composeURL_RawQuery (FormatDuration : Duration → GoString) (formatDateOnly : Time → GoString)
    (n : newsApi) (path query : GoString) :
    (composeURL FormatDuration formatDateOnly n path query).RawQuery =
      Values.Encode ([(str "hl", [n.language]), (str "gl", [n.location]),
          (str "ceid", [n.location ++ str ":" ++ n.language])] ++
        if query ≠ [] then [(str "q", [specQueryText FormatDuration formatDateOnly n query])] else []) := by
  obtain ⟨h1, h2, h3, h4, h5, h6, h7, h8, h9, h10, h11, h12⟩ := keys_ne
  by_cases hq : query = []
  · simp [composeURL, hq, Values.Add, Values.store, Values.lookup, h1, h2, h3, h4, h5, h6, h7, h8, h9, h10, h11, h12]
  · cases hp : n.period <;> cases he : n.endDate <;> cases hs : n.startDate <;>
      simp [composeURL, specQueryText, hq, hp, he, hs, Values.Add, Values.Set, Values.Get, Values.store,
        Values.lookup, h1, h2, h3, h4, h5, h6, h7, h8, h9, h10, h11, h12]
theorem composeURL_ParseQuery (FormatDuration : Duration → GoString) (formatDateOnly : Time → GoString)
    (n : newsApi) (path query : GoString) :
    ParseQuery (composeURL FormatDuration formatDateOnly n path query).RawQuery =
      ([(str "ceid", [n.location ++ str ":" ++ n.language]), (str "gl", [n.location]),
          (str "hl", [n.language])] ++
        (if query ≠ [] then [(str "q", [specQueryText FormatDuration formatDateOnly n query])] else []),
       false) := by
  obtain ⟨h1, h2, h3, h4, h5, h6, h7, h8, h9, h10, h11, h12⟩ := keys_ne
  rw [composeURL_RawQuery]
  by_cases hq : query = []
  · simp only [hq, ne_eq, not_true_eq_false, if_false, List.append_nil]
    rw [Encode_three, ParseQuery, parseQuery_more, parseQuery_more, parseQuery_last]
    simp [Values.Add, Values.store, Values.lookup, h4, h7, h8]
  · simp only [hq, ne_eq, not_false_eq_true, if_true, List.cons_append, List.nil_append]
    rw [Encode_four, ParseQuery, parseQuery_more, parseQuery_more, parseQuery_more, parseQuery_last]
    simp [Values.Add, Values.store, Values.lookup, h1, h2, h3, h4, h5, h6, h7, h8, h9, h10, h11, h12]

/-- C1: for every language, location, path and query text, the query string of
the URL `composeURL` returns parses without error, and its parameters `hl`, `gl`
and `ceid` each occur once, with the decoded values `language`, `location` and
`location ++ ":" ++ language`. -/
theorem composeURL_hl_gl_ceid (FormatDuration : Duration → GoString)
    (formatDateOnly : Time → GoString) (n : newsApi) (path query : GoString) :
    (ParseQuery (composeURL FormatDuration formatDateOnly n path query).RawQuery).2 = false ∧
    (composeURL FormatDuration formatDateOnly n path query).Query.lookup (str "hl") = [n.language] ∧
    (composeURL FormatDuration formatDateOnly n path query).Query.lookup (str "gl") = [n.location] ∧
    (composeURL FormatDuration formatDateOnly n path query).Query.lookup (str "ceid") =
      [n.location ++ str ":" ++ n.language] := by
  obtain ⟨h1, h2, h3, h4, h5, h6, h7, h8, h9, h10, h11, h12⟩ := keys_ne
  simp [URL.Query, composeURL_ParseQuery, Values.lookup, h4, h7, h8]

/-- C2: for a non-empty query text the decoded `q` parameter of the URL is one
string: the raw query, then `" when:" ++ FormatDuration(period)` if a period is
set, then `" before:"` and the end date if set, then `" after:"` and the start
date if set; for the empty query text the URL has no `q` parameter, whatever
filters are configured. -/
theorem composeURL_q (FormatDuration : Duration → GoString) (formatDateOnly : Time → GoString)
    (n : newsApi) (path query : GoString) (hquery : query ≠ []) :
    (composeURL FormatDuration formatDateOnly n path query).Query.lookup (str "q") =
        [query
          ++ (match n.period with
              | some period => str " when:" ++ FormatDuration period
              | none => [])
          ++ (match n.endDate with
              | some endDate => str " before:" ++ formatDateOnly endDate
              | none => [])
          ++ (match n.startDate with
              | some startDate => str " after:" ++ formatDateOnly startDate
              | none => [])] ∧
    (∀ vs, (str "q", vs) ∉ (composeURL FormatDuration formatDateOnly n path []).Query) ∧
    (composeURL FormatDuration formatDateOnly n path []).Query.lookup (str "q") = [] := by
  obtain ⟨h1, h2, h3, h4, h5, h6, h7, h8, h9, h10, h11, h12⟩ := keys_ne
  refine ⟨?_, ?_, ?_⟩
  · simp [URL.Query, composeURL_ParseQuery, Values.lookup, hquery, specQueryText, h7, h8, h9, h4, h5, h6, h1, h2, h3]
  · intro vs
    simp [URL.Query, composeURL_ParseQuery, h10, h11, h12]
  · simp [URL.Query, composeURL_ParseQuery, Values.lookup, h7, h8, h9, h4, h5, h6, h1, h2, h3]

/-- The end-to-end scenario of the specification: query `Politica`, language
`es`, region `AR`, a period set. -/
theorem composeURL_q_witness :
    (composeURL (fun _ => str "2h") (fun _ => str "2024-01-02")
        { defaultNewsApiInit with language := str "es", location := str "AR", period := some 7200000000000 }
        (str "rss/search") (str "Politica")).Query.lookup (str "q") = [str "Politica when:2h"] :=
  (composeURL_q (fun _ => str "2h") (fun _ => str "2024-01-02")
      { defaultNewsApiInit with language := str "es", location := str "AR", period := some 7200000000000 }
      (str "rss/search") (str "Politica") (by decide)).1.trans (by decide)


/-! ## Theorems : a batch pass under a schedule -/

theorem runWorker_get_ne (worker : News → News × List Event) (cells : List News)
    (log : List Event) (i j : Nat) (h : i ≠ j) :
    (runWorker worker (cells, log) i).1[j]? = cells[j]? := by
  unfold runWorker
  cases hc : cells[i]? with
  | none => simp
  | some c => simp [List.getElem?_set_ne h]

theorem runWorker_get_eq (worker : News → News × List Event) (cells : List News)
    (log : List Event) (i : Nat) :
    (runWorker worker (cells, log) i).1[i]? = cells[i]?.map (fun c => (worker c).1) := by
  unfold runWorker
  cases hc : cells[i]? with
  | none => simp [hc]
  | some c =>
    have hi : i < cells.length := by
      rcases List.getElem?_eq_some_iff.mp hc with ⟨h, _⟩
      exact h
    simp [List.getElem?_set_eq_of_lt _ hi]

theorem runWorker_log (worker : News → News × List Event) (cells : List News)
    (log : List Event) (i : Nat) :
    (runWorker worker (cells, log) i).2 =
      log ++ (match cells[i]? with
              | some c => (worker c).2
              | none => []) := by
  unfold runWorker
  cases hc : cells[i]? <;> simp

theorem foldl_runWorker_get (worker : News → News × List Event) :
    ∀ (schedule : List Nat) (cells : List News) (log : List Event), schedule.Nodup →
      ∀ j, (schedule.foldl (runWorker worker) (cells, log)).1[j]? =
        if j ∈ schedule then cells[j]?.map (fun c => (worker c).1) else cells[j]? := by
  intro schedule
  induction schedule with
  | nil => intro cells log _ j; simp
  | cons i rest ih =>
    intro cells log hnd j
    have hi : i ∉ rest := (List.nodup_cons.mp hnd).1
    have hrest : rest.Nodup := (List.nodup_cons.mp hnd).2
    rw [List.foldl_cons]
    have step := ih (runWorker worker (cells, log) i).1 (runWorker worker (cells, log) i).2 hrest j
    rw [Prod.mk.eta] at step
    rw [step]
    by_cases hji : j = i
    · subst hji
      simp [hi, runWorker_get_eq]
    · have hij : i ≠ j := fun h => hji h.symm
      simp [hji, runWorker_get_ne worker cells log i j hij]

theorem foldl_runWorker_log (worker : News → News × List Event) :
    ∀ (schedule : List Nat) (cells : List News) (log : List Event), schedule.Nodup →
      (schedule.foldl (runWorker worker) (cells, log)).2 =
        log ++ schedule.flatMap (fun i =>
          match cells[i]? with
          | some c => (worker c).2
          | none => []) := by
  intro schedule
  induction schedule with
  | nil => intro cells log _; simp
  | cons i rest ih =>
    intro cells log hnd
    have hi : i ∉ rest := (List.nodup_cons.mp hnd).1
    have hrest : rest.Nodup := (List.nodup_cons.mp hnd).2
    rw [List.foldl_cons]
    have step := ih (runWorker worker (cells, log) i).1 (runWorker worker (cells, log) i).2 hrest
    rw [Prod.mk.eta] at step
    rw [step, runWorker_log, List.flatMap_cons, List.append_assoc]
    congr 2
    apply List.flatMap_congr  
    intro j hj
    have hij : i ≠ j := fun h => hi (h ▸ hj)
    rw [runWorker_get_ne worker cells log i j hij]

theorem range_flatMap_get (g : News → List Event) (cells : List News) :
    (List.range cells.length).flatMap (fun i =>
        match cells[i]? with
        | some c => g c
        | none => []) = cells.flatMap g := by
  induction cells with
  | nil => simp
  | cons c rest ih =>
    rw [List.length_cons, List.range_succ_eq_map, List.flatMap_cons, List.flatMap_map]
    simp only [List.getElem?_cons_zero, List.getElem?_cons_succ, List.flatMap_cons]
    rw [← ih]

/-- The items after a batch pass: every item is what its own worker leaves,
whatever the schedule. -/
theorem runBatch_items (worker : News → News × List Event) (newsList : List News)
    (schedule : List Nat) (hs : schedule.Perm (List.range newsList.length)) :
    (runBatch worker newsList schedule).1 = newsList.map (fun c => (worker c).1) := by
  have hnd : schedule.Nodup := (hs.nodup_iff).mpr (List.nodup_range _)
  apply List.ext_getElem?
  intro j
  rw [runBatch, foldl_runWorker_get worker schedule newsList [] hnd j, List.getElem?_map]
  by_cases hj : j ∈ schedule
  · simp [hj]
  · have : ¬ j < newsList.length := fun h => hj (hs.mem_iff.mpr (List.mem_range.mpr h))
    simp [hj, List.getElem?_eq_none (Nat.le_of_not_lt this)]

/-- The events of a batch pass: the events of the workers of all the items, in
the order of the schedule. -/
theorem runBatch_events (worker : News → News × List Event) (newsList : List News)
    (schedule : List Nat) (hs : schedule.Perm (List.range newsList.length)) :
    (runBatch worker newsList schedule).2.Perm (newsList.flatMap (fun c => (worker c).2)) := by
  have hnd : schedule.Nodup := (hs.nodup_iff).mpr (List.nodup_range _)
  rw [runBatch, foldl_runWorker_log worker schedule newsList [] hnd, List.nil_append,
    ← range_flatMap_get (fun c => (worker c).2) newsList]
  exact hs.flatMap_right _

/-! ## Theorems : `FetchSourceLinks` -/

theorem linkWorker_calls (E : Env) (n : newsApi) (newsList : List News) :
    (newsList.flatMap (fun c => (linkWorker E n c).2)).filterMap Event.resolveCall = newsList := by
  induction newsList with
  | nil => rfl
  | cons c rest ih =>
    rw [List.flatMap_cons, List.filterMap_append, ih]
    unfold linkWorker
    cases h : (News.fetchSourceLink (E.render n.ctx) c).2 <;>
      simp [Event.resolveCall, logPrintf, h]

/-- C10, as amended: in `FetchSourceLinks`, whatever the schedule and whichever
items fail, the call returns the batch with as many items, the resolution step
is called exactly once for every item, an item whose step fails is left exactly
as it was before the call (its resolved link unset if it was unset, still set if
it was set) and an item whose step succeeds ends with its resolved link equal to
the URL the step landed on; every item is what its own step leaves, whatever
happens to the other items. -/
theorem FetchSourceLinks_contains_failures (E : Env) (n : newsApi) (newsList : List News)
    (schedule : List Nat)
    (hs : schedule.Perm (List.range newsList.length)) :
    (FetchSourceLinks E n newsList schedule).1.length = newsList.length ∧
    ((FetchSourceLinks E n newsList schedule).2.filterMap Event.resolveCall).Perm newsList ∧
    (FetchSourceLinks E n newsList schedule).1 =
      newsList.map (fun news => (News.fetchSourceLink (E.render n.ctx) news).1) ∧
    ∀ (i : Nat) (news : News), newsList[i]? = some news →
      (∀ e, E.render n.ctx news.Link = .error e →
        (FetchSourceLinks E n newsList schedule).1[i]? = some news) ∧
      (∀ finalURL, E.render n.ctx news.Link = .ok finalURL →
        (FetchSourceLinks E n newsList schedule).1[i]? =
          some { news with SourceLink := finalURL }) := by
  have hitems := runBatch_items (linkWorker E n) newsList schedule hs
  have hevents := runBatch_events (linkWorker E n) newsList schedule hs
  refine ⟨?_, ?_, ?_, ?_⟩
  · rw [FetchSourceLinks, hitems, List.length_map]
  · have := hevents.filterMap Event.resolveCall
    rw [linkWorker_calls] at this
    exact this
  · rw [FetchSourceLinks, hitems]
    rfl
  · intro i news hi
    refine ⟨?_, ?_⟩
    · intro e he
      rw [FetchSourceLinks, hitems, List.getElem?_map, hi]
      simp [linkWorker, News.fetchSourceLink, he]
    · intro finalURL hok
      rw [FetchSourceLinks, hitems, List.getElem?_map, hi]
      simp [linkWorker, News.fetchSourceLink, hok]

/-- A batch of three items in which the browser fails on the second, with the
goroutines taking effect in the order 2, 0, 1: the second item is left as it
was, the first carries the URL the browser landed on. -/
theorem FetchSourceLinks_contains_failures_witness :
    (FetchSourceLinks (sampleEnv []) defaultNewsApiInit
        [NewNews (sampleItem "a" none), NewNews (sampleItem "bad" none), NewNews (sampleItem "c" none)]
        [2, 0, 1]).1[1]? = some (NewNews (sampleItem "bad" none)) ∧
    (FetchSourceLinks (sampleEnv []) defaultNewsApiInit
        [NewNews (sampleItem "a" none), NewNews (sampleItem "bad" none), NewNews (sampleItem "c" none)]
        [2, 0, 1]).1[0]? =
      some { NewNews (sampleItem "a" none) with SourceLink := str "https://a.com/x" } := by
  have h := FetchSourceLinks_contains_failures (sampleEnv []) defaultNewsApiInit
    [NewNews (sampleItem "a" none), NewNews (sampleItem "bad" none), NewNews (sampleItem "c" none)]
    [2, 0, 1] (by decide)
  exact ⟨(h.2.2.2 1 _ (by decide)).1 "timeout" rfl,
    (h.2.2.2 0 _ (by decide)).2 (str "https://a.com/x") rfl⟩

/-- C10, the claim as stated fails: an item of the batch whose resolved link is
already set and whose resolution step fails (the browser fails on the link
`bad`) ends with its resolved link still set, not unset. -/
theorem FetchSourceLinks_contains_failures_counterexample :
    (News.fetchSourceLink ((sampleEnv []).render defaultNewsApiInit.ctx)
        (sampleNews "bad" "https://a.com/x")).2 = some "timeout" ∧
    (FetchSourceLinks (sampleEnv []) defaultNewsApiInit
        [sampleNews "bad" "https://a.com/x"] [0]).1.map (fun news => news.SourceLink) =
      [str "https://a.com/x"] ∧
    str "https://a.com/x" ≠ [] := by
  decide

/-! ## Theorems : `GetTopicNews` -/

/-- `getNews` panics, returns a list, or returns an error it wrapped itself:
never one of the sentinel errors of the package. -/
theorem getNews_result (E : Env) (n : newsApi) (path query : GoString) :
    (getNews E n path query).result = .panic ∨
    (∃ newsList, (getNews E n path query).result = .ok newsList) ∨
    (∃ message cause, (getNews E n path query).result = .err (.wrapped message cause)) := by
  unfold getNews
  simp only
  repeat' split
  all_goals simp

set_option maxRecDepth 100000 in
theorem upperByte_idem (c : Byte) : upperByte (upperByte c) = upperByte c := by
  have h := allBytes_spec (fun c => decide (upperByte (upperByte c) = upperByte c)) (by decide) c
  simpa using h

set_option maxRecDepth 100000 in
theorem upperByte_ascii (c : Byte) (hc : c.val < 128) : (upperByte c).val < 128 := by
  have h := allBytes_spec (fun c => decide (c.val < 128 → (upperByte c).val < 128)) (by decide) c
  simp only [decide_eq_true_eq] at h
  exact h hc

theorem ToUpper_ascii (mapUpper : GoString → GoString) (s : GoString)
    (hs : s.all (fun c => decide (c.val < 128)) = true) :
    ToUpper mapUpper s = s.map upperByte ∧
    (s.map upperByte).all (fun c => decide (c.val < 128)) = true := by
  refine ⟨by simp [ToUpper, hs], ?_⟩
  rw [List.all_eq_true] at hs ⊢
  intro c hc
  obtain ⟨d, hd, rfl⟩ := List.mem_map.mp hc
  have := hs d hd
  simp only [decide_eq_true_eq] at this ⊢
  exact upperByte_ascii d this

theorem ToUpper_idem (mapUpper : GoString → GoString)
    (hfix : ∀ s, s.all (fun c => decide (c.val < 128)) = false →
      ToUpper mapUpper (mapUpper s) = mapUpper s)
    (s : GoString) : ToUpper mapUpper (ToUpper mapUpper s) = ToUpper mapUpper s := by
  cases hs : s.all (fun c => decide (c.val < 128)) with
  | true =>
    obtain ⟨h1, h2⟩ := ToUpper_ascii mapUpper s hs
    rw [h1, (ToUpper_ascii mapUpper _ h2).1, List.map_map]
    apply List.map_congr_left
    intro c _
    exact upperByte_idem c
  | false =>
    have : ToUpper mapUpper s = mapUpper s := by simp [ToUpper, hs]
    rw [this]
    exact hfix s hs

theorem ToUpper_eq_nil (mapUpper : GoString → GoString)
    (hne : ∀ s, s.all (fun c => decide (c.val < 128)) = false → mapUpper s ≠ [])
    (s : GoString) : ToUpper mapUpper s = [] ↔ s = [] := by
  cases hs : s.all (fun c => decide (c.val < 128)) with
  | true =>
    rw [(ToUpper_ascii mapUpper s hs).1]
    simp
  | false =>
    have h : ToUpper mapUpper s = mapUpper s := by simp [ToUpper, hs]
    rw [h]
    constructor
    · intro h0
      exact absurd h0 (hne s hs)
    · intro h0
      subst h0
      simp at hs

/-- C5: `GetTopicNews(t)` returns `ErrEmptyTopic` or `ErrInvalidTopic` exactly
when `t` is empty or the upper-cased `t` is not a key of `TopicMap`, and then no
request is sent; otherwise it is the request for the path
`"rss/headlines/section/topic/" ++ upper(t)`.  Hence `t` and its upper-cased
form are treated identically.  The upper-casing of a string with a non-ASCII
byte is Go's `strings.Map(unicode.ToUpper, s)`, of which two facts are used: its
result is not empty, and upper-casing it again does not change it. -/
theorem GetTopicNews_invalid_iff (E : Env) (n : newsApi) (topic : GoString)
    (hfix : ∀ s, s.all (fun c => decide (c.val < 128)) = false →
      ToUpper E.mapUpper (E.mapUpper s) = E.mapUpper s)
    (hne : ∀ s, s.all (fun c => decide (c.val < 128)) = false → E.mapUpper s ≠ []) :
    (((GetTopicNews E n topic).result = .err .ErrEmptyTopic ∨
        (GetTopicNews E n topic).result = .err .ErrInvalidTopic) ↔
      (topic = [] ∨ E.TopicMap.find (ToUpper E.mapUpper topic) = none)) ∧
    ((topic = [] ∨ E.TopicMap.find (ToUpper E.mapUpper topic) = none) →
      (GetTopicNews E n topic).requests = []) ∧
    (¬ (topic = [] ∨ E.TopicMap.find (ToUpper E.mapUpper topic) = none) →
      GetTopicNews E n topic =
        getNews E n (str "rss/headlines/section/topic/" ++ ToUpper E.mapUpper topic) []) ∧
    GetTopicNews E n (ToUpper E.mapUpper topic) = GetTopicNews E n topic := by
  have hvalid : topic ≠ [] → ∀ v, E.TopicMap.find (ToUpper E.mapUpper topic) = some v →
      GetTopicNews E n topic =
        getNews E n (str "rss/headlines/section/topic/" ++ ToUpper E.mapUpper topic) [] := by
    intro h0 v hv
    simp [GetTopicNews, h0, hv]
  refine ⟨?_, ?_, ?_, ?_⟩
  · constructor
    · intro h
      by_cases h0 : topic = []
      · exact Or.inl h0
      · right
        cases hf : E.TopicMap.find (ToUpper E.mapUpper topic) with
        | none => rfl
        | some v =>
          rw [hvalid h0 v hf] at h
          rcases getNews_result E n (str "rss/headlines/section/topic/" ++ ToUpper E.mapUpper topic) []
            with hp | ⟨l, hl⟩ | ⟨m, c, hw⟩
          · rw [hp] at h; simp at h
          · rw [hl] at h; simp at h
          · rw [hw] at h; simp at h
    · rintro (h0 | hf)
      · left; simp [GetTopicNews, h0]
      · by_cases h0 : topic = []
        · left; simp [GetTopicNews, h0]
        · right; simp [GetTopicNews, h0, hf]
  · rintro (h0 | hf)
    · simp [GetTopicNews, h0]
    · by_cases h0 : topic = []
      · simp [GetTopicNews, h0]
      · simp [GetTopicNews, h0, hf]
  · intro h
    have h0 : topic ≠ [] := fun h0 => h (Or.inl h0)
    cases hf : E.TopicMap.find (ToUpper E.mapUpper topic) with
    | none => exact absurd (Or.inr hf) h
    | some v => exact hvalid h0 v hf
  · by_cases h0 : topic = []
    · subst h0
      simp [ToUpper]
    · have h1 : ToUpper E.mapUpper topic ≠ [] :=
        fun h => h0 ((ToUpper_eq_nil E.mapUpper hne topic).mp h)
      simp only [GetTopicNews, h0, h1, if_false, ToUpper_idem E.mapUpper hfix topic]

/-- The topics `business` and `BUSINESS` of the specification, with a table that
has the key `BUSINESS`: both are the request for the `BUSINESS` path. -/
theorem GetTopicNews_invalid_iff_witness :
    GetTopicNews (sampleEnv []) defaultNewsApiInit (str "business") =
        getNews (sampleEnv []) defaultNewsApiInit (str "rss/headlines/section/topic/BUSINESS") [] ∧
    GetTopicNews (sampleEnv []) defaultNewsApiInit (str "BUSINESS") =
        GetTopicNews (sampleEnv []) defaultNewsApiInit (str "business") := by
  have hfix : ∀ s : GoString, s.all (fun c => decide (c.val < 128)) = false →
      ToUpper (sampleEnv []).mapUpper ((sampleEnv []).mapUpper s) = (sampleEnv []).mapUpper s := by
    intro s hs
    simp [ToUpper, sampleEnv, hs]
  have hne : ∀ s : GoString, s.all (fun c => decide (c.val < 128)) = false →
      (sampleEnv []).mapUpper s ≠ [] := by
    intro s hs h
    simp only [sampleEnv] at h
    subst h
    simp at hs
  have h := GetTopicNews_invalid_iff (sampleEnv []) defaultNewsApiInit (str "business") hfix hne
  exact ⟨h.2.2.1 (by decide), h.2.2.2⟩

/-! ## Theorems : `getNews` on a fetched feed -/

/-- On a feed that is fetched and parsed, `getNews` is the conversion of the
entries, the optional sort and the truncation; one request was sent. -/
theorem getNews_fetched (E : Env) (n : newsApi) (path query : GoString) (items : List Item)
    (h : FetchedFeed E n path query items) :
    getNews E n path query =
      ⟨match (if n.order then sortSlice E.pdqsort (items.map NewNews) else some (items.map NewNews)) with
        | some newsList =>
          .ok (if n.limit > 0 ∧ n.limit < (newsList.length : Int) then newsList.take n.limit.toNat
               else newsList)
        | none => .panic,
       [composeURL E.FormatDuration E.formatDateOnly n path query]⟩ := by
  obtain ⟨client, text, h1, h2, h3, h4⟩ := h
  unfold getNews
  simp only [h1, h2, h3, h4]
  split <;> rfl

/-- With ordering disabled, on a feed of `N` entries that is fetched and parsed,
`getNews` returns the first `min(L, N)` entries in feed order when the limit `L`
is positive, and all `N` entries when `L <= 0`. -/
theorem getNews_unordered (E : Env) (n : newsApi) (path query : GoString) (items : List Item)
    (h : FetchedFeed E n path query items) (horder : n.order = false) :
    ∃ newsList, (getNews E n path query).result = .ok newsList ∧
      newsList = (items.map NewNews).take (if 0 < n.limit then min n.limit.toNat items.length else items.length) ∧
      newsList.length = (if 0 < n.limit then min n.limit.toNat items.length else items.length) := by
  rw [getNews_fetched E n path query items h]
  simp only [horder, Bool.false_eq_true, if_false, List.length_map]
  have key : (if n.limit > 0 ∧ n.limit < (items.length : Int) then (items.map NewNews).take n.limit.toNat
        else items.map NewNews) =
      (items.map NewNews).take (if 0 < n.limit then min n.limit.toNat items.length else items.length) := by
    by_cases hpos : 0 < n.limit
    · by_cases hlt : n.limit < (items.length : Int)
      · have : min n.limit.toNat items.length = n.limit.toNat := by
          apply Nat.min_eq_left; omega
        simp [hpos, hlt, this]
      · have : min n.limit.toNat items.length = items.length := by
          apply Nat.min_eq_right; omega
        simp [hpos, hlt, this]
    · simp [hpos]
  refine ⟨_, rfl, key, ?_⟩
  rw [key, List.length_take, List.length_map]
  split <;> omega

/-- C3: ordering enabled, limit 1, and a fetched feed of two entries of which
the second has no published timestamp: `getNews` panics in the comparison of the
sort and returns no list, where the claim has it return `min(1, 2) = 1` item. -/
theorem getNews_limit_missing_timestamp :
    FetchedFeed (sampleEnv [sampleItem "a" (some 5), sampleItem "b" none])
        { defaultNewsApiInit with order := true, limit := 1 } (str "/rss") []
        [sampleItem "a" (some 5), sampleItem "b" none] ∧
    (getNews (sampleEnv [sampleItem "a" (some 5), sampleItem "b" none])
        { defaultNewsApiInit with order := true, limit := 1 } (str "/rss") []).result = .panic :=
  ⟨⟨Client.DefaultClient, [], rfl, rfl, rfl, rfl⟩, by decide⟩

/-- C4: ordering enabled and a fetched feed of three entries of which the second
has no published timestamp: `getNews` panics in the comparison of the sort,
where the claim has it return the list sorted with that entry last. -/
theorem getNews_order_missing_timestamp :
    FetchedFeed (sampleEnv [sampleItem "a" (some 5), sampleItem "b" none, sampleItem "c" (some 7)])
        { defaultNewsApiInit with order := true } (str "/rss") []
        [sampleItem "a" (some 5), sampleItem "b" none, sampleItem "c" (some 7)] ∧
    (getNews (sampleEnv [sampleItem "a" (some 5), sampleItem "b" none, sampleItem "c" (some 7)])
        { defaultNewsApiInit with order := true } (str "/rss") []).result = .panic :=
  ⟨⟨Client.DefaultClient, [], rfl, rfl, rfl, rfl⟩, by decide⟩

/-- The same feed with every timestamp present is returned newest first. -/
theorem getNews_order_all_timestamps :
    (getNews (sampleEnv [sampleItem "a" (some 5), sampleItem "b" (some 6), sampleItem "c" (some 7)])
        { defaultNewsApiInit with order := true } (str "/rss") []).result =
      .ok [NewNews (sampleItem "c" (some 7)), NewNews (sampleItem "b" (some 6)),
           NewNews (sampleItem "a" (some 5))] := by
  decide

/-! ## Theorems : `FetchSourceContents` -/

theorem contentWorker_parsed (E : Env) (n : newsApi) (news : News) (linkURL : URL)
    (hp : Parse E.parseNonEmpty news.SourceLink = .ok linkURL) :
    (contentWorker E n news).1 = (E.fetchSourceContent news (currSelector n linkURL.Host)).1 ∧
    (contentWorker E n news).2.filterMap Event.extractCall =
      [(news, currSelector n linkURL.Host)] := by
  unfold contentWorker
  rw [hp]
  refine ⟨rfl, ?_⟩
  simp only [List.filterMap_append, List.filterMap_cons, Event.extractCall]
  cases (E.fetchSourceContent news (currSelector n linkURL.Host)).2 <;>
    by_cases hd : n.contentSelector.index linkURL.Host = [] ∧ n.defaultSelector ≠ [] <;>
    simp [hd, Event.extractCall, logPrintf]

theorem contentWorker_unparsed (E : Env) (n : newsApi) (news : News) (e : String)
    (hp : Parse E.parseNonEmpty news.SourceLink = .error e) :
    (contentWorker E n news).1 = news ∧
    (contentWorker E n news).2.filterMap Event.extractCall = [] := by
  unfold contentWorker
  rw [hp]
  exact ⟨rfl, rfl⟩

theorem contentWorker_calls (E : Env) (n : newsApi) (newsList : List News) :
    (newsList.flatMap (fun c => (contentWorker E n c).2)).filterMap Event.extractCall =
      newsList.filterMap (extractionOf E n) := by
  induction newsList with
  | nil => rfl
  | cons c rest ih =>
    rw [List.flatMap_cons, List.filterMap_append, ih, List.filterMap_cons]
    cases hp : Parse E.parseNonEmpty c.SourceLink with
    | ok linkURL => simp [(contentWorker_parsed E n c linkURL hp).2, extractionOf, hp]
    | error e => simp [(contentWorker_unparsed E n c e hp).2, extractionOf, hp]

/-- C6, as amended: whatever the schedule, `FetchSourceContents` calls
`fetchSourceContent` exactly once for every item whose resolved link parses, and
for no other item; the selector passed is `selectorTable[host]` when that is a
non-empty entry and the default selector otherwise, which is the empty selector
when no default is configured; and every item is left as its own call leaves
it. -/
theorem FetchSourceContents_selector (E : Env) (n : newsApi) (newsList : List News)
    (schedule : List Nat) (hs : schedule.Perm (List.range newsList.length)) :
    ((FetchSourceContents E n newsList schedule).2.filterMap Event.extractCall).Perm
      (newsList.filterMap (extractionOf E n)) ∧
    (∀ (i : Nat) (news : News) (linkURL : URL), newsList[i]? = some news →
      Parse E.parseNonEmpty news.SourceLink = .ok linkURL →
      extractionOf E n news = some (news, currSelector n linkURL.Host) ∧
      (FetchSourceContents E n newsList schedule).1[i]? =
        some (E.fetchSourceContent news (currSelector n linkURL.Host)).1) ∧
    (∀ host, (n.contentSelector.index host ≠ [] →
        currSelector n host = n.contentSelector.index host) ∧
      (n.contentSelector.index host = [] → currSelector n host = n.defaultSelector)) := by
  have hitems := runBatch_items (contentWorker E n) newsList schedule hs
  have hevents := runBatch_events (contentWorker E n) newsList schedule hs
  refine ⟨?_, ?_, ?_⟩
  · have := hevents.filterMap Event.extractCall
    rw [contentWorker_calls] at this
    exact this
  · intro i news linkURL hi hp
    refine ⟨by simp [extractionOf, hp], ?_⟩
    rw [FetchSourceContents, hitems, List.getElem?_map, hi]
    simp [(contentWorker_parsed E n news linkURL hp).1]
  · intro host
    constructor
    · intro h
      simp [currSelector, h]
    · intro h
      by_cases hd : n.defaultSelector = []
      · simp [currSelector, h, hd]
      · simp [currSelector, h, hd]

/-- An item resolved to `https://a.com/x`, with the table entry `.body` for the
host `a.com`: one call, with the selector `.body`. -/
theorem FetchSourceContents_selector_witness :
    ((FetchSourceContents (sampleEnv [])
        { defaultNewsApiInit with contentSelector := [(str "a.com", str ".body")] }
        [sampleNews "a" "https://a.com/x"] [0]).2.filterMap Event.extractCall).Perm
      [(sampleNews "a" "https://a.com/x", str ".body")] :=
  (FetchSourceContents_selector (sampleEnv [])
    { defaultNewsApiInit with contentSelector := [(str "a.com", str ".body")] }
    [sampleNews "a" "https://a.com/x"] [0] (by decide)).1

/-- C6, the claim as stated fails twice.  With no table entry for the host and
no default selector, the extraction call is made all the same, with the empty
selector.  With a table entry for the host that is the empty selector and the
default selector `body`, the selector passed is `body`, not the table entry. -/
theorem FetchSourceContents_selector_counterexample :
    (GoMap.find defaultNewsApiInit.contentSelector (str "a.com") = none ∧
      defaultNewsApiInit.defaultSelector = [] ∧
      (FetchSourceContents (sampleEnv []) defaultNewsApiInit
          [sampleNews "a" "https://a.com/x"] [0]).2 =
        [Event.fetchSourceContent (sampleNews "a" "https://a.com/x") []]) ∧
    (GoMap.find [(str "a.com", ([] : GoString))] (str "a.com") = some [] ∧
      (FetchSourceContents (sampleEnv [])
          { defaultNewsApiInit with
              contentSelector := [(str "a.com", [])], defaultSelector := str "body" }
          [sampleNews "a" "https://a.com/x"] [0]).2 =
        [Event.usingDefaultSelector
           { Scheme := str "https", Host := str "a.com", Path := str "/x", RawQuery := [] },
         Event.fetchSourceContent (sampleNews "a" "https://a.com/x") (str "body")]) := by
  decide

/-- C7, as amended: an item whose resolved link is unset is not skipped.  The
empty link parses, with the empty host, so whatever the schedule, the table and
the default selector, `fetchSourceContent` is called on the item, with the
selector chosen for the empty host, and the item is left as that call leaves
it. -/
theorem FetchSourceContents_unset_link (E : Env) (n : newsApi) (newsList : List News)
    (schedule : List Nat) (hs : schedule.Perm (List.range newsList.length))
    (i : Nat) (news : News) (hi : newsList[i]? = some news) (hunset : news.SourceLink = []) :
    (news, currSelector n []) ∈ (FetchSourceContents E n newsList schedule).2.filterMap Event.extractCall ∧
    (FetchSourceContents E n newsList schedule).1[i]? =
      some (E.fetchSourceContent news (currSelector n [])).1 := by
  have hp : Parse E.parseNonEmpty news.SourceLink =
      .ok { Scheme := [], Host := [], Path := [], RawQuery := [] } := by
    simp [Parse, hunset]
  have hitems := runBatch_items (contentWorker E n) newsList schedule hs
  have hevents := runBatch_events (contentWorker E n) newsList schedule hs
  constructor
  · have hperm := hevents.filterMap Event.extractCall
    rw [contentWorker_calls] at hperm
    rw [FetchSourceContents, hperm.mem_iff, List.mem_filterMap]
    exact ⟨news, List.getElem?_mem hi, by simp [extractionOf, hp]⟩
  · rw [FetchSourceContents, hitems, List.getElem?_map, hi]
    simp [(contentWorker_parsed E n news _ hp).1]

/-- An unresolved item next to a resolved one, with the default selector `body`:
the unresolved item gets the extraction call, with the selector `body`. -/
theorem FetchSourceContents_unset_link_witness :
    (sampleNews "b" "", str "body") ∈
      (FetchSourceContents (sampleEnv []) { defaultNewsApiInit with defaultSelector := str "body" }
        [sampleNews "a" "https://a.com/x", sampleNews "b" ""] [1, 0]).2.filterMap Event.extractCall :=
  (FetchSourceContents_unset_link (sampleEnv [])
    { defaultNewsApiInit with defaultSelector := str "body" }
    [sampleNews "a" "https://a.com/x", sampleNews "b" ""] [1, 0] (by decide) 1
    (sampleNews "b" "") (by decide) (by decide)).1

/-- C7, the claim as stated fails: for an item whose resolved link is unset,
`FetchSourceContents` does invoke the extraction step. -/
theorem FetchSourceContents_unset_link_counterexample :
    (sampleNews "b" "").SourceLink = [] ∧
    (FetchSourceContents (sampleEnv []) { defaultNewsApiInit with defaultSelector := str "body" }
        [sampleNews "b" ""] [0]).2 =
      [Event.usingDefaultSelector { Scheme := [], Host := [], Path := [], RawQuery := [] },
       Event.fetchSourceContent (sampleNews "b" "") (str "body")] := by
  decide

/-! ## Theorems : the configuration object and its options -/

theorem foldl_applyOption_get (a : Handle) (options : List (newsApi → newsApi)) :
    ∀ h : Heap, (options.foldl (applyOption a) h)[a]? =
      h[a]?.map (fun n => options.foldl (fun n option => option n) n) := by
  induction options with
  | nil => intro h; simp
  | cons o rest ih =>
    intro h
    rw [List.foldl_cons, ih, applyOption, List.getElem?_modify_eq]
    cases h[a]? <;> simp

/-- C8, as amended: every call of `NewNewsApi` returns the same handle, the
address of the one object `defaultNewsApi` points to.  Options applied through
one handle are seen through every other; a later call without options leaves
the object as the earlier options left it and yields it, which is the
documented defaults when no option was applied before. -/
theorem NewNewsApi_shared (options1 options2 : List NewsApiOption) (h : Heap) :
    (NewNewsApi options1 h).1 = defaultNewsApi ∧
    (NewNewsApi options2 (NewNewsApi options1 h).2).1 = (NewNewsApi options1 h).1 ∧
    (∀ (queryOptions : List QueryOption) (h2 : Heap),
      (SetQueryOptions (NewNewsApi options1 h).1 queryOptions h2)[
          (NewNewsApi options2 (NewNewsApi options1 h).2).1]? =
        h2[defaultNewsApi]?.map (fun n => queryOptions.foldl (fun n option => option n) n)) ∧
    (NewNewsApi options2 (NewNewsApi options1 h).2).2[(NewNewsApi options1 h).1]? =
      h[defaultNewsApi]?.map (fun n =>
        options2.foldl (fun n option => option n) (options1.foldl (fun n option => option n) n)) ∧
    (NewNewsApi [] h).2 = h ∧
    (NewNewsApi [] h).2[(NewNewsApi [] h).1]? = h[defaultNewsApi]? ∧
    (NewNewsApi [] (NewNewsApi options1 h).2).2[(NewNewsApi [] (NewNewsApi options1 h).2).1]? =
      h[defaultNewsApi]?.map (fun n => options1.foldl (fun n option => option n) n) ∧
    (NewNewsApi [] initHeap).2[(NewNewsApi [] initHeap).1]? = some defaultNewsApiInit := by
  refine ⟨rfl, rfl, ?_, ?_, rfl, rfl, ?_, rfl⟩
  · intro queryOptions h2
    exact foldl_applyOption_get defaultNewsApi queryOptions h2
  · show (options2.foldl (applyOption defaultNewsApi)
        (options1.foldl (applyOption defaultNewsApi) h))[defaultNewsApi]? = _
    rw [foldl_applyOption_get, foldl_applyOption_get]
    cases h[defaultNewsApi]? <;> simp
  · show (options1.foldl (applyOption defaultNewsApi) h)[defaultNewsApi]? = _
    rw [foldl_applyOption_get]

/-- C8, the claim as stated fails: of two handles from two calls of `NewNewsApi`,
setting the language to `es` through the first changes the language read through
the second from `en` to `es`, and a later `NewNewsApi()` without options has the
language `es` and, after `WithoutProxy`, no client. -/
theorem NewNewsApi_shared_counterexample :
    ((NewNewsApi [] (NewNewsApi [] initHeap).2).2[(NewNewsApi [] (NewNewsApi [] initHeap).2).1]?).map
        (fun n => n.language) = some (str "en") ∧
    ((SetQueryOptions (NewNewsApi [] initHeap).1 [WithLanguage (str "es")]
        (NewNewsApi [] (NewNewsApi [] initHeap).2).2)[
          (NewNewsApi [] (NewNewsApi [] initHeap).2).1]?).map (fun n => n.language) = some (str "es") ∧
    ((NewNewsApi [] (SetQueryOptions (NewNewsApi [] initHeap).1 [WithLanguage (str "es")]
        (NewNewsApi [] initHeap).2)).2[
          (NewNewsApi [] (SetQueryOptions (NewNewsApi [] initHeap).1 [WithLanguage (str "es")]
            (NewNewsApi [] initHeap).2)).1]?).map (fun n => n.language) = some (str "es") ∧
    ((NewNewsApi [] (NewNewsApi [WithoutProxy] initHeap).2).2[
          (NewNewsApi [] (NewNewsApi [WithoutProxy] initHeap).2).1]?).map (fun n => n.client) =
      some none := by
  decide

theorem option_keeps_cap (MaxSearchResults : Int) (call : OptionCall) (n : newsApi)
    (hn : n.limit ≤ MaxSearchResults) : (call.option MaxSearchResults n).limit ≤ MaxSearchResults := by
  cases call <;>
    simp only [OptionCall.option, WithLanguage, WithLocation, WithLimit, WithPeriod, WithoutPeriod,
      WithStartDate, WithoutStartDate, WithEndDate, WithoutEndDate, WithoutDuration,
      WithContentSelector, WithOrder, WithDefaultSelector, WithProxy, WithoutProxy, WithContext] <;>
    first
    | exact hn
    | (split <;> omega)

theorem options_keep_cap (MaxSearchResults : Int) (calls : List OptionCall) :
    ∀ n : newsApi, n.limit ≤ MaxSearchResults →
      (calls.foldl (fun n call => call.option MaxSearchResults n) n).limit ≤ MaxSearchResults := by
  induction calls with
  | nil => intro n hn; exact hn
  | cons c rest ih =>
    intro n hn
    rw [List.foldl_cons]
    exact ih _ (option_keeps_cap MaxSearchResults c n hn)

/-- C9: `WithLimit(l)` sets the limit to `min(l, MaxSearchResults)` and changes
no other field; hence, when the default limit does not exceed
`MaxSearchResults`, the limit of the configuration object does not exceed it
after any sequence of options of the package, applied through any handle. -/
theorem WithLimit_caps (MaxSearchResults : Int)
    (hdefault : defaultNewsApiInit.limit ≤ MaxSearchResults) :
    (∀ (l : Int) (n : newsApi),
      WithLimit MaxSearchResults l n = { n with limit := min l MaxSearchResults }) ∧
    (∀ calls : List OptionCall,
      (calls.foldl (fun n call => call.option MaxSearchResults n) defaultNewsApiInit).limit
        ≤ MaxSearchResults) ∧
    (∀ (calls : List OptionCall) (n : newsApi),
      (SetQueryOptions defaultNewsApi (calls.map (OptionCall.option MaxSearchResults)) initHeap)[
          defaultNewsApi]? = some n →
      n.limit ≤ MaxSearchResults) := by
  refine ⟨?_, ?_, ?_⟩
  · intro l n
    unfold WithLimit
    by_cases h : l > MaxSearchResults
    · have : min l MaxSearchResults = MaxSearchResults := min_eq_right (le_of_lt h)
      simp [h, this]
    · have : min l MaxSearchResults = l := min_eq_left (le_of_not_lt h)
      simp [h, this]
  · intro calls
    exact options_keep_cap MaxSearchResults calls defaultNewsApiInit hdefault
  · intro calls n hget
    rw [SetQueryOptions, foldl_applyOption_get] at hget
    simp only [initHeap, defaultNewsApi, List.getElem?_cons_zero, Option.map_some',
      Option.some.injEq, List.foldl_map] at hget
    rw [← hget]
    exact options_keep_cap MaxSearchResults calls defaultNewsApiInit hdefault

/-- With `MaxSearchResults` 100, `WithLimit(250)` sets the limit to 100 and
leaves the rest of the default configuration. -/
theorem WithLimit_caps_witness :
    WithLimit 100 250 defaultNewsApiInit = { defaultNewsApiInit with limit := 100 } :=
  (WithLimit_caps 100 (by decide)).1 250 defaultNewsApiInit

/-! ## Theorems : the insertion sort of `sort.Slice` -/

theorem less_cons (p : News) (xs : List News) (i j : Nat) :
    less (p :: xs) (i + 1) (j + 1) = less xs i j := by
  simp [less]

theorem swap_cons (p : News) (xs : List News) (i j : Nat) :
    swap (p :: xs) (i + 1) (j + 1) = p :: swap xs i j := by
  unfold swap
  simp only [List.getElem?_cons_succ]
  cases xs[i]? <;> cases xs[j]? <;> simp

theorem less_adjacent (pre post : List News) (x y : News) (t u : Time)
    (hx : x.PublishedParsed = some t) (hy : y.PublishedParsed = some u) :
    less (pre ++ y :: x :: post) (pre.length + 1) pre.length = some (decide (u < t)) := by
  induction pre with
  | nil => simp [less, hx, hy, Time.After]
  | cons p pre ih =>
    simp only [List.cons_append, List.length_cons]
    rw [less_cons]
    exact ih

theorem swap_adjacent (pre post : List News) (x y : News) :
    swap (pre ++ y :: x :: post) (pre.length + 1) pre.length = pre ++ x :: y :: post := by
  induction pre with
  | nil => simp [swap]
  | cons p pre ih =>
    simp only [List.cons_append, List.length_cons]
    rw [swap_cons, ih]

theorem published_of_some (x : News) (t : Time) (h : x.PublishedParsed = some t) :
    x.published = t := by
  simp [News.published, h]

/-- The inner loop, started at the element that follows a prefix whose elements
all have a timestamp, does not panic and is `insertDescending`. -/
theorem insertionInner_eq (x : News) (hx : x.PublishedParsed ≠ none) :
    ∀ (before post : List News), (∀ y ∈ before, y.PublishedParsed ≠ none) →
      insertionInner (before.reverse ++ x :: post) before.length =
        some (insertDescending x before ++ post) := by
  intro before
  induction before with
  | nil => intro post _; simp [insertionInner, insertDescending]
  | cons y before ih =>
    intro post hts
    obtain ⟨t, ht⟩ := Option.ne_none_iff_exists'.mp hx
    obtain ⟨u, hu⟩ := Option.ne_none_iff_exists'.mp (hts y (List.mem_cons_self _ _))
    have hrest : ∀ z ∈ before, z.PublishedParsed ≠ none :=
      fun z hz => hts z (List.mem_cons_of_mem _ hz)
    have hshape : (y :: before).reverse ++ x :: post = before.reverse ++ y :: x :: post := by
      simp
    have hlen : before.reverse.length = before.length := List.length_reverse _
    rw [hshape, List.length_cons, insertionInner]
    have hless := less_adjacent before.reverse post x y t u ht hu
    rw [hlen] at hless
    rw [hless]
    have hswap := swap_adjacent before.reverse post x y
    rw [hlen] at hswap
    by_cases hlt : u < t
    · simp only [hlt, decide_True]
      rw [hswap, ih (y :: post) hrest]
      simp [insertDescending, published_of_some x t ht, published_of_some y u hu, hlt]
    · simp only [hlt, decide_False]
      simp [insertDescending, published_of_some x t ht, published_of_some y u hu, hlt]

theorem insertDescending_perm (x : News) (before : List News) :
    (insertDescending x before).Perm (x :: before) := by
  induction before with
  | nil => simp [insertDescending]
  | cons y before ih =>
    unfold insertDescending
    split
    · exact (List.perm_append_singleton _ _).trans ((ih.cons y).trans (List.Perm.swap _ _ _))
    · exact (List.perm_append_singleton _ _).trans ((List.reverse_perm _).cons x)

theorem insertDescending_sorted (x : News) (before : List News)
    (h : before.reverse.Pairwise (fun a b => b.published ≤ a.published)) :
    (insertDescending x before).Pairwise (fun a b => b.published ≤ a.published) := by
  induction before with
  | nil => simp [insertDescending]
  | cons y before ih =>
    rw [List.reverse_cons, List.pairwise_append] at h
    obtain ⟨hbefore, _, hy⟩ := h
    unfold insertDescending
    split
    · rename_i hlt
      rw [List.pairwise_append]
      refine ⟨ih hbefore, List.pairwise_singleton _ _, ?_⟩
      intro a ha b hb
      rw [List.mem_singleton] at hb
      subst hb
      rcases List.mem_cons.mp ((insertDescending_perm x before).mem_iff.mp ha) with rfl | hmem
      · exact le_of_lt hlt
      · exact hy a (List.mem_reverse.mpr hmem) b (List.mem_singleton_self _)
    · rename_i hge
      have hxy : x.published ≤ y.published := le_of_not_lt hge
      rw [List.pairwise_append]
      refine ⟨?_, List.pairwise_singleton _ _, ?_⟩
      · rw [List.reverse_cons, List.pairwise_append]
        exact ⟨hbefore, List.pairwise_singleton _ _, hy⟩
      · intro a ha b hb
        rw [List.mem_singleton] at hb
        subst hb
        rw [List.reverse_cons, List.mem_append, List.mem_singleton] at ha
        rcases ha with hmem | rfl
        · exact le_trans hxy (hy a hmem y (List.mem_singleton_self _))
        · exact hxy
theorem insertDescending_length (x : News) (before : List News) :
    (insertDescending x before).length = before.length + 1 := by
  rw [(insertDescending_perm x before).length_eq, List.length_cons]

/-- The outer loop, on a slice whose elements all have a timestamp, does not
panic: it inserts the elements after the prefix into it, one by one. -/
theorem insertionOuter_eq :
    ∀ (rest pre : List News), (∀ y ∈ pre ++ rest, y.PublishedParsed ≠ none) →
      insertionOuter (pre ++ rest) pre.length rest.length =
        some (rest.foldl (fun pre x => insertDescending x pre.reverse) pre) := by
  intro rest
  induction rest with
  | nil => intro pre _; simp [insertionOuter]
  | cons x rest ih =>
    intro pre hts
    have hx : x.PublishedParsed ≠ none := hts x (by simp)
    have hpre : ∀ y ∈ pre.reverse, y.PublishedParsed ≠ none :=
      fun y hy => hts y (List.mem_append_left _ (List.mem_reverse.mp hy))
    have hinner := insertionInner_eq x hx pre.reverse rest hpre
    rw [List.reverse_reverse, List.length_reverse] at hinner
    rw [List.length_cons, insertionOuter, hinner]
    simp only [List.foldl_cons]
    have hlen := insertDescending_length x pre.reverse
    rw [List.length_reverse] at hlen
    rw [← hlen]
    apply ih
    intro y hy
    rcases List.mem_append.mp hy with h | h
    · rcases List.mem_cons.mp ((insertDescending_perm x pre.reverse).mem_iff.mp h) with rfl | h2
      · exact hx
      · exact hts y (List.mem_append_left _ (List.mem_reverse.mp h2))
    · exact hts y (List.mem_append_right _ (List.mem_cons_of_mem _ h))

theorem foldl_insertDescending (rest : List News) :
    ∀ pre : List News, pre.Pairwise (fun a b => b.published ≤ a.published) →
      (rest.foldl (fun pre x => insertDescending x pre.reverse) pre).Pairwise
          (fun a b => b.published ≤ a.published) ∧
      (rest.foldl (fun pre x => insertDescending x pre.reverse) pre).Perm (pre ++ rest) := by
  induction rest with
  | nil => intro pre h; simpa using h
  | cons x rest ih =>
    intro pre h
    rw [List.foldl_cons]
    have hs : (insertDescending x pre.reverse).Pairwise (fun a b => b.published ≤ a.published) := by
      apply insertDescending_sorted
      rw [List.reverse_reverse]
      exact h
    obtain ⟨h1, h2⟩ := ih _ hs
    refine ⟨h1, h2.trans ?_⟩
    have hp : (insertDescending x pre.reverse).Perm (pre ++ [x]) :=
      (insertDescending_perm x pre.reverse).trans
        (((List.reverse_perm pre).cons x).trans (List.perm_append_singleton x pre).symm)
    have := hp.append_right rest
    simpa using this

/-- On a slice of at most 12 elements that all have a timestamp, `sort.Slice`
with the comparison of `getNews` does not panic and returns the elements
newest first. -/
theorem sortSlice_sorted (pdqsort : List News → Option (List News)) (newsList : List News)
    (hlen : newsList.length ≤ 12) (hts : ∀ y ∈ newsList, y.PublishedParsed ≠ none) :
    ∃ sorted, sortSlice pdqsort newsList = some sorted ∧ sorted.Perm newsList ∧
      sorted.Pairwise (fun a b => b.published ≤ a.published) := by
  unfold sortSlice
  rw [if_pos hlen]
  cases newsList with
  | nil => exact ⟨[], by simp [insertionOuter], List.Perm.refl _, List.Pairwise.nil⟩
  | cons x rest =>
    have h := insertionOuter_eq rest [x] (by simpa using hts)
    simp only [List.singleton_append, List.length_singleton] at h
    simp only [List.length_cons, Nat.add_sub_cancel]
    obtain ⟨h1, h2⟩ := foldl_insertDescending rest [x] (List.pairwise_singleton _ _)
    exact ⟨_, h, by simpa using h2, h1⟩

theorem NewestFirst_of_sorted (newsList : List News)
    (hts : ∀ y ∈ newsList, y.PublishedParsed ≠ none)
    (h : newsList.Pairwise (fun a b => b.published ≤ a.published)) : NewestFirst newsList := by
  unfold NewestFirst
  apply List.Pairwise.chain'
  refine List.Pairwise.imp_of_mem ?_ h
  intro a b ha hb hab
  obtain ⟨t, ht⟩ := Option.ne_none_iff_exists'.mp (hts a ha)
  obtain ⟨u, hu⟩ := Option.ne_none_iff_exists'.mp (hts b hb)
  rw [published_of_some a t ht, published_of_some b u hu] at hab
  simp only [ht, hu]
  exact hab

/-- With ordering enabled, on a fetched feed of at most 12 entries that all have
a published timestamp, `getNews` returns `min(L, N)` of the items when the limit
`L` is positive and all `N` items otherwise, newest first. -/
theorem getNews_ordered (E : Env) (n : newsApi) (path query : GoString) (items : List Item)
    (h : FetchedFeed E n path query items) (horder : n.order = true)
    (hlen : items.length ≤ 12) (hts : ∀ item ∈ items, item.PublishedParsed ≠ none) :
    ∃ newsList, (getNews E n path query).result = .ok newsList ∧
      newsList.length = (if 0 < n.limit then min n.limit.toNat items.length else items.length) ∧
      NewestFirst newsList ∧ ∀ news ∈ newsList, news ∈ items.map NewNews := by
  have hts2 : ∀ y ∈ items.map NewNews, y.PublishedParsed ≠ none := by
    intro y hy
    obtain ⟨item, hitem, rfl⟩ := List.mem_map.mp hy
    exact hts item hitem
  obtain ⟨sorted, hsort, hperm, hpair⟩ :=
    sortSlice_sorted E.pdqsort (items.map NewNews) (by rw [List.length_map]; exact hlen) hts2
  have hslen : sorted.length = items.length := by
    rw [hperm.length_eq, List.length_map]
  rw [getNews_fetched E n path query items h]
  simp only [horder, if_true, hsort]
  refine ⟨_, rfl, ?_, ?_, ?_⟩
  · by_cases hpos : 0 < n.limit
    · by_cases hlt : n.limit < (sorted.length : Int)
      · simp only [gt_iff_lt, hpos, hlt, and_self, if_true, List.length_take]
        rw [hslen]
      · simp only [gt_iff_lt, hpos, hlt, and_false, if_false, if_true]
        rw [hslen] at hlt ⊢
        omega
    · simp only [gt_iff_lt, hpos, false_and, if_false]
      exact hslen
  · have hsub : (if n.limit > 0 ∧ n.limit < (sorted.length : Int) then sorted.take n.limit.toNat
        else sorted).Sublist sorted := by
      split
      · exact List.take_sublist _ _
      · exact List.Sublist.refl _
    apply NewestFirst_of_sorted
    · intro y hy
      exact hts2 y (hperm.mem_iff.mp (hsub.subset hy))
    · exact hpair.sublist hsub
  · intro news hnews
    have hmem : news ∈ sorted := by
      split at hnews
      · exact List.mem_of_mem_take hnews
      · exact hnews
    exact hperm.mem_iff.mp hmem

/-- Three entries with timestamps, ordering enabled, limit 2: the two newest,
newest first. -/
theorem getNews_ordered_example :
    (getNews (sampleEnv [sampleItem "a" (some 5), sampleItem "b" (some 7), sampleItem "c" (some 6)])
        { defaultNewsApiInit with order := true, limit := 2 } (str "/rss") []).result =
      .ok [NewNews (sampleItem "b" (some 7)), NewNews (sampleItem "c" (some 6))] := by
  decide

end NewsApi
